import Mathlib

/-!
Verification of the PatrickStar heterogeneous-memory chunk core.

Shallow embedding of:
* `src/client/chunk_data.py` (`TensorInfo`, `TensorInfoList`, `Chunk`:
  `try_allocate`, `allocate`, `move`, `get_status`) — namespace `Client`;
* `src/patrickstar/core/chunk_list.py` (`ChunkList`: `generate_chunk_id`,
  `access_chunk`, `prepare_device`, `chunk_move`, `new_chunk`,
  `_chunk_to_move_out_for_room_making`) — namespace `Core`.

Python `torch.device` values are modelled by `TorchDevice` (a type and an
optional index).  Python integers are `Nat`/`Int`; byte quantities that are
subtracted (`extra_need_bytes = need_bytes - free_chunk_mem_size`) are `Int`.
Fallible code (`raise RuntimeError`, `KeyError`) returns `Except String _`.
-/

namespace PatrickStar

/-- Device type carried by a `torch.device` (`device.type` in the source):
the two memory tiers of the design. -/
inductive DevType where
  | cpu
  | cuda
deriving DecidableEq, Repr

/-- A `torch.device`: a type and an optional index (`torch.device("cpu")`
has no index, `torch.device("cuda:k")` has index `k`). -/
structure TorchDevice where
  devType : DevType
  index : Option Nat
deriving DecidableEq, Repr

namespace Client

/-- `PSTensorStatus` from the client `const` module: the lifecycle status of
one stored tensor.  (`UNINIT` is the pre-first-use status; only the
distinctions `= COMPUTE` and `= FREE` are ever branched on in
`src/client/chunk_data.py`.) -/
inductive PSTensorStatus where
  | FREE
  | HOLD
  | COMPUTE
  | UNINIT
deriving DecidableEq, Repr

/-- `PSChunkStatus` from the client `const` module: the aggregate status of a
chunk. -/
inductive PSChunkStatus where
  | FREE
  | HOLD
  | COMPUTE
  | RELEASED
deriving DecidableEq, Repr

/-- `AccessType`: whether an item is a parameter's data or its gradient. -/
inductive AccessType where
  | DATA
  | GRAD
deriving DecidableEq, Repr

/-- Element types (`torch.dtype`) with their byte size (`getsizeof`). -/
inductive DType where
  | f16
  | f32
  | f64
deriving DecidableEq, Repr

/-- `helper.getsizeof`: bytes per element of a dtype. -/
def getsizeof : DType → Nat
  | .f16 => 2
  | .f32 => 4
  | .f64 => 8

/-- A torch tensor view produced by `payload.narrow(0, start, size).view(shape)`:
its start offset in the underlying payload, its element count, its shape, the
device the payload lives on, and the element type. -/
structure TensorView where
  vstart : Nat
  vlen : Nat
  vshape : List Nat
  vdevice : TorchDevice
  vdtype : DType
deriving DecidableEq, Repr

/-- The fields of a `torch.nn.Parameter` that `Chunk.move` reads and writes:
`ps_shape` (the logical shape), `ps_data_tensor` / `ps_grad_tensor` (the
re-pointed views), `data` and `grad`. -/
structure ClientParam where
  psShape : List Nat
  psDataTensor : Option TensorView
  psGradTensor : Option TensorView
  dataT : Option TensorView
  gradT : Option TensorView
deriving DecidableEq, Repr

/-- `TensorInfo`: one item stored in a chunk.  The source object holds
`start` plus a reference to the owning parameter; the fields the code
dereferences through that reference are flattened here: `tid` is
`tensor_id()` (`ps_data_id`/`ps_grad_id`), `numel` is
`param.ps_shape.numel()`, and `status` is `status()`
(`data_status`/`grad_status`). -/
structure TensorInfo where
  start : Nat
  tid : Nat
  numel : Nat
  status : PSTensorStatus
deriving DecidableEq, Repr

/-- The sort key of `generate_in_sorted_order` (`key=lambda x: x.start`). -/
def infoLE (a b : TensorInfo) : Prop := a.start ≤ b.start

instance : DecidableRel infoLE := fun a b => Nat.decLe a.start b.start

instance : IsTotal TensorInfo infoLE :=
  ⟨fun a b => Nat.le_total a.start b.start⟩

instance : IsTrans TensorInfo infoLE :=
  ⟨fun _ _ _ h1 h2 => Nat.le_trans h1 h2⟩

/-- `TensorInfoList.generate_in_sorted_order`: the items in insertion order,
stably sorted by `start` (Python's `list.sort` is stable, as is
`List.insertionSort`). -/
def sortedInfos (l : List TensorInfo) : List TensorInfo :=
  l.insertionSort infoLE

/-- `TensorInfoList.add`: `tensor_id_to_info_dict[item.tensor_id()] = item`.
A Python dict assignment replaces the value in place when the key exists
(keeping its position) and appends otherwise. -/
def addInfo (l : List TensorInfo) (x : TensorInfo) : List TensorInfo :=
  if l.any (fun y => y.tid = x.tid) then
    l.map (fun y => if y.tid = x.tid then x else y)
  else
    l ++ [x]

/-- The `Chunk` of `src/client/chunk_data.py`: a contiguous payload of
`capacity` elements of type `dataType` on device `cdevice`, the item list of
its `TensorInfoList` (in dict insertion order), and the last-touched
timestamp. -/
structure CChunk where
  chunkId : Nat
  capacity : Nat
  dataType : DType
  cdevice : TorchDevice
  payload : List Int
  infos : List TensorInfo
  timestamp : Nat
deriving DecidableEq, Repr

/-- `dest.zero_()` after `payload.narrow(0, off, n)`: write zeros over the
`n` elements of the payload starting at offset `off`. -/
def zeroRange : List Int → Nat → Nat → List Int
  | xs, _, 0 => xs
  | [], _, _ => []
  | _ :: xs, 0, n + 1 => 0 :: zeroRange xs 0 n
  | x :: xs, k + 1, n + 1 => x :: zeroRange xs k (n + 1)

/-- `Chunk.allocate(offset, numel, param, access_type)`: zero the backing
range, add the new `TensorInfo`, touch the timestamp (`now` is the wall
clock passed in for `datetime.now()`). -/
def allocateC (c : CChunk) (off numel tid : Nat) (st : PSTensorStatus)
    (now : Nat) : CChunk :=
  { c with
    payload := zeroRange c.payload off numel
    infos := addInfo c.infos ⟨off, tid, numel, st⟩
    timestamp := now }

/-- The scan loop of `Chunk.try_allocate` plus the trailing tail-gap check:
walk the items in sorted order, skip `FREE` ones, track `prev_end`, and
return the first offset whose gap fits `numel` (the gap arithmetic is over
Python ints, hence `Int`). -/
def findOffset (cap numel : Nat) : Nat → List TensorInfo → Option Nat
  | prevEnd, [] =>
      if (numel : Int) ≤ (cap : Int) - (prevEnd : Int) then some prevEnd else none
  | prevEnd, info :: rest =>
      if info.status = .FREE then
        findOffset cap numel prevEnd rest
      else if (numel : Int) ≤ (info.start : Int) - (prevEnd : Int) then
        some prevEnd
      else
        findOffset cap numel (info.start + info.numel) rest

/-- `Chunk.try_allocate(param, access_type)`: first-fit search; on success
performs `allocate` and returns the offset and the updated chunk, on failure
returns `none` (the source returns `None`, leaving the chunk untouched).
`shape` is `param.ps_shape`, `tid` the tensor id, `st` the current status of
the owning tensor. -/
def tryAllocate (c : CChunk) (shape : List Nat) (tid : Nat)
    (st : PSTensorStatus) (now : Nat) : Option (Nat × CChunk) :=
  let numel := shape.prod
  match findOffset c.capacity numel 0 (sortedInfos c.infos) with
  | some off => some (off, allocateC c off numel tid st now)
  | none => none

/-- The non-`FREE` items in ascending start order: the items the first-fit
scan actually measures gaps between. -/
def nonFreeSorted (c : CChunk) : List TensorInfo :=
  (sortedInfos c.infos).filter (fun i => decide (i.status ≠ PSTensorStatus.FREE))

/-- The gap list of a scan beginning at `prevEnd`: one `(offset, size)` entry
before each non-free item and the tail gap up to the capacity. -/
def gapsFrom (cap : Nat) : Nat → List TensorInfo → List (Nat × Int)
  | prevEnd, [] => [(prevEnd, (cap : Int) - (prevEnd : Int))]
  | prevEnd, i :: rest =>
      (prevEnd, (i.start : Int) - (prevEnd : Int)) :: gapsFrom cap (i.start + i.numel) rest

/-- All gaps of a chunk: between consecutive non-free items (starting from
offset 0) and the tail gap. -/
def gapsC (c : CChunk) : List (Nat × Int) := gapsFrom c.capacity 0 (nonFreeSorted c)

/-- The scan of `Chunk.get_status`: return `COMPUTE` at the first `COMPUTE`
item, otherwise track whether every item was `FREE`. -/
def getStatusGo : Bool → List TensorInfo → PSChunkStatus
  | freeFlag, [] => if freeFlag then .FREE else .HOLD
  | freeFlag, i :: rest =>
      if i.status = .COMPUTE then .COMPUTE
      else if i.status ≠ .FREE then getStatusGo false rest
      else getStatusGo freeFlag rest

/-- `Chunk.get_status`: zero items means `FREE`, otherwise scan the items in
sorted order. -/
def getStatusC (c : CChunk) : PSChunkStatus :=
  if c.infos.length = 0 then .FREE
  else getStatusGo true (sortedInfos c.infos)

/-- External item-lifecycle event: the owning tensor's status field
(`param.data_status` / `param.grad_status`) is assigned; every `TensorInfo`
of that tensor id observes the new value (the info holds a reference to the
parameter). -/
def setStatusC (c : CChunk) (tid : Nat) (st : PSTensorStatus) : CChunk :=
  { c with
    infos := c.infos.map (fun i =>
      if i.tid = tid then { i with status := st } else i) }

/-- Non-overlap of resident items: any two hosted item descriptors are
either released (`FREE`) or occupy disjoint `[start, start+numel)` ranges. -/
def residentDisjoint (c : CChunk) : Prop :=
  c.infos.Pairwise (fun a b =>
    a.status = .FREE ∨ b.status = .FREE ∨
    a.start + a.numel ≤ b.start ∨ b.start + b.numel ≤ a.start)

/-- Chunks whose items were all installed through `try_allocate`, under the
item lifecycle of the data model: a fresh tensor id per installation (ids
are dict keys), statuses mutated externally but a released (`FREE`) item is
never reactivated.  When `pos` is `true` every installed item additionally
has a positive element count. -/
inductive ReachP : Bool → CChunk → Prop where
  | init (pos : Bool) (cid cap : Nat) (dt : DType) (dev : TorchDevice) :
      ReachP pos ⟨cid, cap, dt, dev, List.replicate cap 0, [], 0⟩
  | alloc {pos : Bool} {c : CChunk} {shape : List Nat} {tid : Nat}
      {st : PSTensorStatus} {now off : Nat} {c' : CChunk} :
      ReachP pos c →
      (∀ i ∈ c.infos, i.tid ≠ tid) →
      (pos = true → 0 < shape.prod) →
      tryAllocate c shape tid st now = some (off, c') →
      ReachP pos c'
  | setSt {pos : Bool} {c : CChunk} {tid : Nat} {st : PSTensorStatus} :
      ReachP pos c →
      (st ≠ .FREE → ∀ i ∈ c.infos, i.tid = tid → i.status ≠ .FREE) →
      ReachP pos (setStatusC c tid st)

/-- First-match lookup in a Python dict rendered as an association list
(`tensor_id in d` / `d[tensor_id]`). -/
def dictFind (k : Nat) : List (Nat × ClientParam) → Option ClientParam
  | [] => none
  | (k', v) :: rest => if k' = k then some v else dictFind k rest

/-- In-place mutation of the parameter object stored under key `k`: every
binding of `k` is replaced by the new value, other bindings are untouched. -/
def dictPut (k : Nat) (v : ClientParam) (d : List (Nat × ClientParam)) :
    List (Nat × ClientParam) :=
  d.map (fun p => if p.1 = k then (k, v) else p)

/-- The view `self.payload.narrow(0, start, size).view(param.ps_shape)`
installed by `Chunk.move` after the payload has been moved to `target`. -/
def mkView (start len : Nat) (shape : List Nat) (target : TorchDevice)
    (dt : DType) : TensorView :=
  ⟨start, len, shape, target, dt⟩

/-- The re-pointing loop of `Chunk.move`: walk the items in sorted order,
skip `FREE` ones; re-point through `param_data_dict` first, else
`param_grad_dict`, else `raise RuntimeError`.  For a data item the view is
written to `ps_data_tensor` and `data`; for a grad item it is written to
`ps_grad_tensor` and `grad` is cleared. -/
def repoint (dt : DType) (target : TorchDevice) :
    List (Nat × ClientParam) → List (Nat × ClientParam) → List TensorInfo →
    Except String (List (Nat × ClientParam) × List (Nat × ClientParam))
  | dd, gd, [] => .ok (dd, gd)
  | dd, gd, i :: rest =>
      if i.status = .FREE then repoint dt target dd gd rest
      else
        match dictFind i.tid dd with
        | some p =>
            let v := mkView i.start i.numel p.psShape target dt
            repoint dt target
              (dictPut i.tid { p with psDataTensor := some v, dataT := some v } dd)
              gd rest
        | none =>
            match dictFind i.tid gd with
            | some p =>
                let v := mkView i.start i.numel p.psShape target dt
                repoint dt target dd
                  (dictPut i.tid { p with psGradTensor := some v, gradT := none } gd)
                  rest
            | none => .error "RuntimeError"

/-- The per-device byte bookkeeping of the external `HybridPSManager`
(`add` / `delete` by `capacity * getsizeof(data_type)`). -/
def moveAccounting (mgr : TorchDevice → Int) (source target : TorchDevice)
    (bytes : Nat) : TorchDevice → Int :=
  fun d =>
    let afterAdd : Int := if d = target then mgr d + bytes else mgr d
    if d = source then afterAdd - bytes else afterAdd

/-- `Chunk.move(param_data_dict, param_grad_dict, target_device)`: no-op when
already on `target_device`; otherwise move the payload, transfer the manager
accounting, re-point every non-`FREE` item, then update the device and the
timestamp.  A failed re-resolution raises, which is rendered as `.error`
(the source raises out of the call). -/
def cmove (mgr : TorchDevice → Int) (c : CChunk)
    (dd gd : List (Nat × ClientParam)) (target : TorchDevice) (now : Nat) :
    Except String
      ((TorchDevice → Int) × CChunk ×
        List (Nat × ClientParam) × List (Nat × ClientParam)) :=
  if c.cdevice = target then .ok (mgr, c, dd, gd)
  else
    let bytes := c.capacity * getsizeof c.dataType
    let mgr' := moveAccounting mgr c.cdevice target bytes
    match repoint c.dataType target dd gd (sortedInfos c.infos) with
    | .error e => .error e
    | .ok (dd', gd') =>
        .ok (mgr', { c with cdevice := target, timestamp := now }, dd', gd')

end Client

namespace Core

/-- `ChunkState` from `patrickstar.core.const`: lifecycle state of a core
chunk (`RELEASED` = storage not materialized). -/
inductive ChunkState where
  | RELEASED
  | FREE
  | HOLD
  | COMPUTE
deriving DecidableEq, Repr

/-- `ChunkType` from `patrickstar.core.const`: the category a chunk belongs
to. -/
inductive ChunkType where
  | PARAM_FP16
  | PARAM_FP32
  | MOMENTUM
  | VARIANCE
  | UNDEF
deriving DecidableEq, Repr

/-- The core `Chunk` of `patrickstar.core.chunk_data` as seen from
`chunk_list.py`.  Modelled from the spec: that module is not under `src/`;
only the attributes `chunk_list.py` queries are represented.  `device = none`
means the payload is not materialized (`get_device()` returns `None`);
`nextMomCpu`/`nextMomCuda` are the externally tracked next-access-moment
prediction (`next_accessed_mom`), and the moment lists are the warm-up
access history filled by `append_moment`. -/
structure PSChunk where
  capacity : Nat
  elemSize : Nat
  device : Option TorchDevice
  state : ChunkState
  pinned : Bool
  nextMomCpu : Nat
  nextMomCuda : Nat
  cpuMoments : List Nat
  gpuMoments : List Nat
deriving DecidableEq, Repr

/-- `Chunk.get_chunk_space()`: capacity times element size, independent of
materialization. -/
def PSChunk.chunkSpace (c : PSChunk) : Nat := c.capacity * c.elemSize

/-- `Chunk.get_payload_space()`: the bytes of the materialized payload, `0`
when the payload does not exist. -/
def PSChunk.payloadSpace (c : PSChunk) : Nat :=
  if c.device = none then 0 else c.capacity * c.elemSize

/-- `Chunk.next_accessed_mom(target_device)`: the predicted next access
moment on the given device type.  Modelled from the spec
(`nextAccessMoment(blockId, tierType) -> scalar`, tracked externally). -/
def PSChunk.nextMom (c : PSChunk) (t : DevType) : Nat :=
  match t with
  | .cpu => c.nextMomCpu
  | .cuda => c.nextMomCuda

/-- `Chunk.append_moment(mom, compute_device)`: record a warm-up access
moment on the access list of the device type.  Modelled from the spec
(predictor "populated externally during a warm-up phase"). -/
def PSChunk.appendMoment (c : PSChunk) (mom : Nat) (dev : TorchDevice) :
    PSChunk :=
  match dev.devType with
  | .cpu => { c with cpuMoments := c.cpuMoments ++ [mom] }
  | .cuda => { c with gpuMoments := c.gpuMoments ++ [mom] }

/-- The external `PatrickStarManager` as consulted by `chunk_list.py`.
Modelled from the spec (capacity tracker: `available`, `free`, reserve /
release per tier; warm-up flag and current moment for the predictor).
`avail*` are `available_chunk_mem`, `free*` are `free_chunk_mem`, per device
type. -/
structure Manager where
  isWarmup : Bool
  curMom : Nat
  availCpu : Int
  availCuda : Int
  freeCpu : Int
  freeCuda : Int
deriving DecidableEq, Repr

/-- `mgr.available_chunk_mem(device_type)`. -/
def Manager.availOf (m : Manager) : DevType → Int
  | .cpu => m.availCpu
  | .cuda => m.availCuda

/-- `mgr.free_chunk_mem(device_type)`. -/
def Manager.freeOf (m : Manager) : DevType → Int
  | .cpu => m.freeCpu
  | .cuda => m.freeCuda

/-- Capacity-tracker reservation on a tier: `bytes` more used, hence `bytes`
less free.  Modelled from the spec (`reserve(tierType, device, bytes)`). -/
def Manager.reserve (m : Manager) (t : DevType) (bytes : Nat) : Manager :=
  match t with
  | .cpu => { m with freeCpu := m.freeCpu - bytes }
  | .cuda => { m with freeCuda := m.freeCuda - bytes }

/-- Capacity-tracker release on a tier.  Modelled from the spec
(`release(tierType, device, bytes)`). -/
def Manager.release (m : Manager) (t : DevType) (bytes : Nat) : Manager :=
  match t with
  | .cpu => { m with freeCpu := m.freeCpu + bytes }
  | .cuda => { m with freeCuda := m.freeCuda + bytes }

/-- The `ChunkList` of `src/patrickstar/core/chunk_list.py`:
`id_to_chunk_map` as an association list in dict insertion order, the
per-category id lists, and `local_rank`.  (`generated_chunk_id` is a *class*
attribute, not a field — see `runCounter` below.) -/
structure ChunkList where
  localRank : Nat
  idToChunkMap : List (Nat × PSChunk)
  typeIdLists : ChunkType → List Nat

/-- First-match association-list lookup (Python dict access). -/
def alookup (k : Nat) : List (Nat × PSChunk) → Option PSChunk
  | [] => none
  | (k', v) :: rest => if k' = k then some v else alookup k rest

/-- Dict lookup `id_to_chunk_map[chunk_id]` / `.get(chunk_id)`. -/
def lookupChunk (cl : ChunkList) (cid : Nat) : Option PSChunk :=
  alookup cid cl.idToChunkMap

/-- In-place mutation of the chunk object stored under `cid`. -/
def updateChunk (cl : ChunkList) (cid : Nat) (c : PSChunk) : ChunkList :=
  { cl with
    idToChunkMap := cl.idToChunkMap.map (fun p => if p.1 = cid then (cid, c) else p) }

/-- The candidate filter of `_chunk_to_move_out_for_room_making`: chunks with
a materialized payload on the target device type whose state is not
`COMPUTE` and which are not pinned. -/
def candidates (cl : ChunkList) (t : DevType) : List (Nat × PSChunk) :=
  cl.idToChunkMap.filter
    (fun p =>
      (match p.2.device with
       | some d => d.devType = t
       | none => false)
      && !(p.2.state = .COMPUTE)
      && !p.2.pinned)

/-- The order of `PriorityQueue` pops for entries `(-next_mom, chunk_id)`:
next-access moment descending, ties by ascending chunk id.  (All queue keys
are distinct because chunk ids are dict keys, so the pop order is exactly
this total order.) -/
def victimRel (t : DevType) (a b : Nat × PSChunk) : Prop :=
  b.2.nextMom t < a.2.nextMom t ∨
    (a.2.nextMom t = b.2.nextMom t ∧ a.1 ≤ b.1)

instance (t : DevType) : DecidableRel (victimRel t) := fun a b => by
  unfold victimRel
  infer_instance

instance (t : DevType) : IsTotal (Nat × PSChunk) (victimRel t) :=
  ⟨fun a b => by
    unfold victimRel
    omega⟩

instance (t : DevType) : IsTrans (Nat × PSChunk) (victimRel t) :=
  ⟨fun a b c h1 h2 => by
    unfold victimRel at h1 h2 ⊢
    omega⟩

/-- The candidates in the order the priority queue yields them. -/
def sortedCandidates (cl : ChunkList) (t : DevType) : List (Nat × PSChunk) :=
  (candidates cl t).insertionSort (victimRel t)

/-- The accumulation loop of `_chunk_to_move_out_for_room_making`: pop,
accumulate `get_payload_space()` into `moved_bytes`, append the id, and break
as soon as `moved_bytes >= still_need_bytes`.  Returns the final
`moved_bytes` and `moved_list`. -/
def pickVictims (d : Int) : Nat → List (Nat × PSChunk) → Nat × List Nat
  | acc, [] => (acc, [])
  | acc, (cid, ch) :: rest =>
      let acc' := acc + ch.payloadSpace
      if d ≤ (acc' : Int) then (acc', [cid])
      else
        let r := pickVictims d acc' rest
        (r.1, cid :: r.2)

/-- `_chunk_to_move_out_for_room_making(size_in_bytes, target_device)`:
select victims in queue order; raise when even the whole candidate set does
not cover the request. -/
def chunkToMoveOut (cl : ChunkList) (d : Int) (target : TorchDevice) :
    Except String (List Nat) :=
  let r := pickVictims d 0 (sortedCandidates cl target.devType)
  if (r.1 : Int) < d then .error "still needs more space than available"
  else .ok r.2

/-- Total payload bytes of a set of candidate chunks. -/
def sumPay (l : List (Nat × PSChunk)) : Nat :=
  (l.map (fun p => p.2.payloadSpace)).sum

/-- The core `Chunk.move(device)` called by `chunk_move`.  Modelled from the
spec (`move(targetTier)`: no-op when already on the target, otherwise
transfer the capacity bookkeeping — destination used up, source used down —
relocate, and update the current tier; status unaffected). -/
def coreMove (mgr : Manager) (ch : PSChunk) (dev : TorchDevice) :
    Manager × PSChunk :=
  if ch.device = some dev then (mgr, ch)
  else
    let bytes := ch.payloadSpace
    let mgr1 := mgr.reserve dev.devType bytes
    let mgr2 :=
      match ch.device with
      | some src => mgr1.release src.devType bytes
      | none => mgr1
    (mgr2, { ch with device := some dev })

/-- `ChunkList.chunk_move(chunk_id, device)`: re-check that the destination
has room for this chunk's payload, fail fatally otherwise, then move when the
device differs. -/
def chunkMoveC (mgr : Manager) (cl : ChunkList) (cid : Nat)
    (dev : TorchDevice) : Except String (Manager × ChunkList) :=
  match lookupChunk cl cid with
  | none => .error "KeyError"
  | some ch =>
      if mgr.freeOf dev.devType < (ch.payloadSpace : Int) then
        .error "chunk move failed"
      else if ch.device ≠ some dev then
        let r := coreMove mgr ch dev
        .ok (r.1, updateChunk cl cid r.2)
      else .ok (mgr, cl)

/-- `ChunkList.prepare_device(target_device, need_bytes)`: fatal when the
available chunk memory is below `need_bytes`; no-op when the free chunk
memory covers it; otherwise select victims for the shortfall and move each to
the other tier (`cpu` ↔ `cuda:local_rank`). -/
def prepareDevice (mgr : Manager) (cl : ChunkList) (target : TorchDevice)
    (need : Nat) : Except String (Manager × ChunkList) :=
  if mgr.availOf target.devType < (need : Int) then
    .error "has not enough space"
  else
    let extra : Int := (need : Int) - mgr.freeOf target.devType
    if extra ≤ 0 then .ok (mgr, cl)
    else
      match chunkToMoveOut cl extra target with
      | .error e => .error e
      | .ok moved =>
          let newDev : TorchDevice :=
            if target.devType = .cuda then ⟨.cpu, none⟩
            else ⟨.cuda, some cl.localRank⟩
          moved.foldlM (fun st cid => chunkMoveC st.1 st.2 cid newDev) (mgr, cl)

/-- `Chunk.allocate_payload(device)`: first-touch materialization.  Modelled
from the spec ("materialize storage on targetDevice (first-touch
allocation)"; state machine `RELEASED → FREE` on materialization, capacity
reserved on the tier). -/
def allocatePayload (mgr : Manager) (ch : PSChunk) (dev : TorchDevice) :
    Manager × PSChunk :=
  (mgr.reserve dev.devType ch.chunkSpace,
   { ch with device := some dev, state := .FREE })

/-- What a successful `access_chunk` did: re-materialized a released chunk,
moved it across tiers, or nothing. -/
inductive AccessAction where
  | materialize
  | moved
  | noop
deriving DecidableEq, Repr

/-- The branch body of `access_chunk` after the warm-up bookkeeping
(`chunk_state = chunk.get_state()` onwards): (1) re-allocate a `RELEASED`
chunk after making room, (2) move the chunk when its device type differs
from the compute device's (with the source's post-move assert), or (3) do
nothing. -/
def accessChunkGo (mgr : Manager) (cl1 : ChunkList) (cid : Nat)
    (ch : PSChunk) (dev : TorchDevice) :
    Except String (Manager × ChunkList × AccessAction) :=
  if ch.state = .RELEASED then
    match prepareDevice mgr cl1 dev ch.chunkSpace with
    | .error e => .error e
    | .ok (mgr1, cl2) =>
        match lookupChunk cl2 cid with
        | none => .error "KeyError"
        | some ch2 =>
            let r := allocatePayload mgr1 ch2 dev
            .ok (r.1, updateChunk cl2 cid r.2, .materialize)
  else
    match ch.device with
    | none => .error "AttributeError"
    | some d =>
        if d.devType ≠ dev.devType then
          match prepareDevice mgr cl1 dev ch.chunkSpace with
          | .error e => .error e
          | .ok (mgr1, cl2) =>
              match lookupChunk cl2 cid with
              | none => .error "KeyError"
              | some ch2 =>
                  let r := coreMove mgr1 ch2 dev
                  if (r.2.device.map TorchDevice.devType) ≠ some dev.devType then
                    .error "AssertionError"
                  else
                    .ok (r.1, updateChunk cl2 cid r.2, .moved)
        else
          .ok (mgr, cl1, .noop)

/-- `ChunkList.access_chunk(chunk_id, compute_device)`: record the access
moment during warm-up, then dispatch on the chunk's state and device. -/
def accessChunk (mgr : Manager) (cl : ChunkList) (cid : Nat)
    (dev : TorchDevice) :
    Except String (Manager × ChunkList × AccessAction) :=
  match lookupChunk cl cid with
  | none => .error "KeyError"
  | some ch0 =>
      let ch := if mgr.isWarmup then ch0.appendMoment mgr.curMom dev else ch0
      let cl1 := if mgr.isWarmup then updateChunk cl cid ch else cl
      accessChunkGo mgr cl1 cid ch dev

/-- `CommInfo` returned by `new_chunk`. -/
structure CommInfo where
  chunkType : ChunkType
  groupId : Nat
  offsetInGroup : Nat
deriving DecidableEq, Repr

/-- The core `Chunk.__init__` as invoked by `new_chunk`.  Modelled from the
spec (`patrickstar.core.chunk_data` is not under `src/`): registration is
lazy — "storage not yet materialized — status RELEASED" — so the payload
does not exist (`device = none`) and no tier capacity is touched. -/
def mkCoreChunk (capacity elemSize : Nat) : PSChunk :=
  { capacity := capacity
    elemSize := elemSize
    device := none
    state := .RELEASED
    pinned := false
    nextMomCpu := 0
    nextMomCuda := 0
    cpuMoments := []
    gpuMoments := [] }

/-- `ChunkList.new_chunk(chunk_id, chunk_size, data_type, is_dummy,
chunk_type)`: fail on a duplicate id, register the chunk, append the id to
its category list, and return the communication position within the
category (`world_size` is `get_world_size()`). -/
def newChunk (cl : ChunkList) (cid size elemSize : Nat) (ctype : ChunkType)
    (worldSize : Nat) : Except String (ChunkList × CommInfo) :=
  if (lookupChunk cl cid).isSome then
    .error "chunk_id already existed"
  else
    let cl' : ChunkList :=
      { cl with
        idToChunkMap := cl.idToChunkMap ++ [(cid, mkCoreChunk size elemSize)]
        typeIdLists := fun t =>
          if t = ctype then cl.typeIdLists t ++ [cid] else cl.typeIdLists t }
    let n := (cl.typeIdLists ctype).length + 1
    .ok (cl', ⟨ctype, (n - 1) / worldSize, (n - 1) % worldSize⟩)

/-- The placement-relevant fields of a core chunk: everything except the
warm-up access-moment history.  Used to state that a call changes no chunk's
capacity, device, state, pin or prediction. -/
def PSChunk.core (c : PSChunk) :
    Nat × Nat × Option TorchDevice × ChunkState × Bool × Nat × Nat :=
  (c.capacity, c.elemSize, c.device, c.state, c.pinned, c.nextMomCpu,
   c.nextMomCuda)

/-- One process-level event touching the class attribute
`ChunkList.generated_chunk_id`: constructing a `ChunkList`
(`__init__` never mentions the counter) or calling
`generate_chunk_id` (`ChunkList.generated_chunk_id += 1; return it`). -/
inductive CLOp where
  | newList
  | genId
deriving DecidableEq, Repr

/-- Process history semantics of the class-level counter: starting from a
counter value, run the events and collect every id `generate_chunk_id`
returned.  The counter's declared initial value is `-1`
(`generated_chunk_id = -1` at class scope). -/
def runCounter : Int → List CLOp → Int × List Int
  | c, [] => (c, [])
  | c, .newList :: rest => runCounter c rest
  | c, .genId :: rest =>
      let r := runCounter (c + 1) rest
      (r.1, (c + 1) :: r.2)

end Core

/-! ## Helper lemmas -/

namespace Core

theorem runCounter_ids (ops : List CLOp) : ∀ c : Int,
    (runCounter c ops).2 =
      List.map (fun k : Nat => c + 1 + (k : Int)) (List.range (ops.count .genId)) := by
  induction ops with
  | nil => intro c; simp [runCounter]
  | cons op rest ih =>
    intro c
    cases op with
    | newList =>
        simp only [runCounter]
        rw [ih c]
        have : (CLOp.newList :: rest).count .genId = rest.count .genId := by
          simp [List.count_cons]
        rw [this]
    | genId =>
        simp only [runCounter]
        rw [ih (c + 1)]
        have hcnt : (CLOp.genId :: rest).count .genId = rest.count .genId + 1 := by
          simp [List.count_cons]
        rw [hcnt, List.range_succ_eq_map, List.map_cons, List.map_map]
        refine List.cons_eq_cons.mpr ⟨by omega, ?_⟩
        apply List.map_congr_left
        intro a _
        simp only [Function.comp_apply]
        push_cast
        ring

theorem appendMoment_state (c : PSChunk) (m : Nat) (d : TorchDevice) :
    (c.appendMoment m d).state = c.state := by
  cases h : d.devType <;> simp [PSChunk.appendMoment, h]

theorem appendMoment_device (c : PSChunk) (m : Nat) (d : TorchDevice) :
    (c.appendMoment m d).device = c.device := by
  cases h : d.devType <;> simp [PSChunk.appendMoment, h]

theorem appendMoment_chunkSpace (c : PSChunk) (m : Nat) (d : TorchDevice) :
    (c.appendMoment m d).chunkSpace = c.chunkSpace := by
  cases h : d.devType <;> simp [PSChunk.appendMoment, PSChunk.chunkSpace, h]

theorem alookup_append_single {l : List (Nat × PSChunk)} {k : Nat} {v : PSChunk}
    (h : alookup k l = none) : alookup k (l ++ [(k, v)]) = some v := by
  induction l with
  | nil => simp [alookup]
  | cons p rest ih =>
    obtain ⟨k', v'⟩ := p
    rw [alookup] at h
    by_cases hk : k' = k
    · rw [if_pos hk] at h
      cases h
    · rw [if_neg hk] at h
      rw [List.cons_append, alookup, if_neg hk]
      exact ih h

theorem alookup_eq_of_mem_nodup :
    ∀ {l : List (Nat × PSChunk)} {k : Nat} {v : PSChunk},
    (k, v) ∈ l → (l.map Prod.fst).Nodup → alookup k l = some v := by
  intro l
  induction l with
  | nil =>
    intro k v hm _
    cases hm
  | cons p rest ih =>
    intro k v hm hnd
    obtain ⟨a, b⟩ := p
    rcases List.mem_cons.mp hm with heq | hm'
    · cases heq
      rw [alookup, if_pos rfl]
    · rw [alookup]
      have hk : a ≠ k := by
        intro hak
        subst hak
        exact (List.nodup_cons.mp hnd).1
          (List.mem_map.mpr ⟨(a, v), hm', rfl⟩)
      rw [if_neg hk]
      exact ih hm' (List.nodup_cons.mp hnd).2

theorem alookup_updateChunk_ne (cl : ChunkList) (cid : Nat) (v : PSChunk)
    (k : Nat) (hk : k ≠ cid) :
    alookup k (updateChunk cl cid v).idToChunkMap = alookup k cl.idToChunkMap := by
  show alookup k (cl.idToChunkMap.map _) = _
  induction cl.idToChunkMap with
  | nil => rfl
  | cons p rest ih =>
    obtain ⟨a, b⟩ := p
    by_cases ha : a = cid
    · subst ha
      rw [List.map_cons, if_pos rfl, alookup, alookup,
        if_neg (fun h => hk h.symm), if_neg (fun h => hk h.symm)]
      exact ih
    · rw [List.map_cons, if_neg (by simpa using ha), alookup, alookup]
      by_cases hak : a = k
      · rw [if_pos hak, if_pos hak]
      · rw [if_neg hak, if_neg hak]
        exact ih

theorem pickVictims_ge (d : Int) :
    ∀ (l : List (Nat × PSChunk)) (acc : Nat),
    d ≤ ((acc + sumPay l : Nat) : Int) → d ≤ ((pickVictims d acc l).1 : Int) := by
  intro l
  induction l with
  | nil =>
    intro acc h
    simpa [pickVictims, sumPay] using h
  | cons p rest ih =>
    intro acc h
    obtain ⟨cid, ch⟩ := p
    rw [pickVictims]
    by_cases hb : d ≤ ((acc + ch.payloadSpace : Nat) : Int)
    · rw [if_pos hb]
      exact hb
    · rw [if_neg hb]
      refine ih (acc + ch.payloadSpace) ?_
      have : acc + sumPay ((cid, ch) :: rest) =
          acc + ch.payloadSpace + sumPay rest := by
        simp [sumPay]
        omega
      rw [this] at h
      exact h

theorem pickVictims_le (d : Int) :
    ∀ (l : List (Nat × PSChunk)) (acc : Nat),
    (pickVictims d acc l).1 ≤ acc + sumPay l := by
  intro l
  induction l with
  | nil =>
    intro acc
    simp [pickVictims, sumPay]
  | cons p rest ih =>
    intro acc
    obtain ⟨cid, ch⟩ := p
    rw [pickVictims]
    have hsum : acc + sumPay ((cid, ch) :: rest) =
        acc + ch.payloadSpace + sumPay rest := by
      simp [sumPay]
      omega
    by_cases hb : d ≤ ((acc + ch.payloadSpace : Nat) : Int)
    · rw [if_pos hb]
      simp only
      omega
    · rw [if_neg hb]
      simp only
      rw [hsum]
      exact ih (acc + ch.payloadSpace)

theorem pickVictims_take (d : Int) :
    ∀ (l : List (Nat × PSChunk)) (acc : Nat), ((acc : Int) < d) →
    ∃ k, k ≤ l.length ∧
      (pickVictims d acc l).2 = (l.take k).map Prod.fst ∧
      (pickVictims d acc l).1 = acc + sumPay (l.take k) ∧
      (∀ j, j < k → ((acc + sumPay (l.take j) : Nat) : Int) < d) ∧
      (d ≤ ((acc + sumPay (l.take k) : Nat) : Int) ∨ k = l.length) := by
  intro l
  induction l with
  | nil =>
    intro acc _
    exact ⟨0, by simp, rfl, by simp [pickVictims, sumPay], by omega, Or.inr rfl⟩
  | cons p rest ih =>
    intro acc hacc
    obtain ⟨cid, ch⟩ := p
    rw [pickVictims]
    by_cases hb : d ≤ ((acc + ch.payloadSpace : Nat) : Int)
    · rw [if_pos hb]
      refine ⟨1, by simp, by simp, ?_, ?_, Or.inl ?_⟩
      · simp [sumPay]
      · intro j hj
        interval_cases j
        simpa [sumPay] using hacc
      · simpa [sumPay] using hb
    · rw [if_neg hb]
      obtain ⟨k', hk'len, hl', hacc', hmin', hlast'⟩ :=
        ih (acc + ch.payloadSpace) (by omega)
      refine ⟨k' + 1, by simpa using hk'len, ?_, ?_, ?_, ?_⟩
      · simp only [List.take_succ_cons, List.map_cons]
        rw [← hl']
      · simp only [List.take_succ_cons]
        rw [hacc']
        simp [sumPay]
        omega
      · intro j hj
        cases j with
        | zero => simpa [sumPay] using hacc
        | succ j' =>
          have := hmin' j' (by omega)
          simp only [List.take_succ_cons]
          have hs : acc + sumPay ((cid, ch) :: rest.take j') =
              acc + ch.payloadSpace + sumPay (rest.take j') := by
            simp [sumPay]
            omega
          rw [hs]
          exact this
      · rcases hlast' with h | h
        · left
          simp only [List.take_succ_cons]
          have hs : acc + sumPay ((cid, ch) :: rest.take k') =
              acc + ch.payloadSpace + sumPay (rest.take k') := by
            simp [sumPay]
            omega
          rw [hs]
          exact h
        · right
          simp [h]

theorem pickVictims_mem (d : Int) :
    ∀ (l : List (Nat × PSChunk)) (acc : Nat) (cid : Nat),
    cid ∈ (pickVictims d acc l).2 → ∃ ch, (cid, ch) ∈ l := by
  intro l
  induction l with
  | nil =>
    intro acc cid h
    simp [pickVictims] at h
  | cons p rest ih =>
    intro acc cid h
    obtain ⟨c0, ch0⟩ := p
    rw [pickVictims] at h
    by_cases hb : d ≤ ((acc + ch0.payloadSpace : Nat) : Int)
    · rw [if_pos hb] at h
      simp only at h
      rcases List.mem_singleton.mp h with rfl
      exact ⟨ch0, by simp⟩
    · rw [if_neg hb] at h
      simp only at h
      rcases List.mem_cons.mp h with rfl | h'
      · exact ⟨ch0, by simp⟩
      · obtain ⟨ch, hch⟩ := ih (acc + ch0.payloadSpace) cid h'
        exact ⟨ch, by simp [hch]⟩

theorem mem_candidates_props {cl : ChunkList} {t : DevType}
    {cid : Nat} {ch : PSChunk} (h : (cid, ch) ∈ candidates cl t) :
    (cid, ch) ∈ cl.idToChunkMap ∧ ch.state ≠ .COMPUTE ∧ ch.pinned = false ∧
      ∃ dv, ch.device = some dv ∧ dv.devType = t := by
  have hm := List.mem_filter.mp h
  refine ⟨hm.1, ?_⟩
  have hc := hm.2
  simp only [Bool.and_eq_true, Bool.not_eq_true'] at hc
  obtain ⟨⟨hdev, hstate⟩, hpin⟩ := hc
  refine ⟨?_, hpin, ?_⟩
  · intro hcontra
    rw [decide_eq_false_iff_not] at hstate
    exact hstate hcontra
  · cases hdv : ch.device with
    | none =>
        rw [hdv] at hdev
        simp at hdev
    | some dv =>
        rw [hdv] at hdev
        simp at hdev
        exact ⟨dv, rfl, hdev⟩

theorem sortedCandidates_perm (cl : ChunkList) (t : DevType) :
    (sortedCandidates cl t).Perm (candidates cl t) :=
  List.perm_insertionSort (victimRel t) (candidates cl t)

theorem sortedCandidates_pairwise (cl : ChunkList) (t : DevType) :
    (sortedCandidates cl t).Pairwise (victimRel t) :=
  List.sorted_insertionSort (victimRel t) (candidates cl t)

theorem chunkMoveC_preserves {mgr : Manager} {cl : ChunkList} {cid : Nat}
    {dev : TorchDevice} {mgr' : Manager} {cl' : ChunkList}
    (h : chunkMoveC mgr cl cid dev = .ok (mgr', cl')) (k : Nat) (hk : k ≠ cid) :
    alookup k cl'.idToChunkMap = alookup k cl.idToChunkMap := by
  unfold chunkMoveC at h
  cases hl : lookupChunk cl cid with
  | none =>
      rw [hl] at h
      cases h
  | some ch =>
      rw [hl] at h
      dsimp only at h
      by_cases hfree : mgr.freeOf dev.devType < (ch.payloadSpace : Int)
      · rw [if_pos hfree] at h
        cases h
      · rw [if_neg hfree] at h
        by_cases hdev : ch.device ≠ some dev
        · rw [if_pos hdev] at h
          simp only [Except.ok.injEq, Prod.mk.injEq] at h
          obtain ⟨-, hcl'⟩ := h
          rw [← hcl']
          exact alookup_updateChunk_ne cl cid _ k hk
        · rw [if_neg hdev] at h
          simp only [Except.ok.injEq, Prod.mk.injEq] at h
          obtain ⟨-, hcl'⟩ := h
          rw [← hcl']

theorem foldlM_chunkMoveC_preserves (dev : TorchDevice) :
    ∀ (moved : List Nat) (st st' : Manager × ChunkList),
    moved.foldlM (fun st cid => chunkMoveC st.1 st.2 cid dev) st = .ok st' →
    ∀ k, k ∉ moved →
      alookup k st'.2.idToChunkMap = alookup k st.2.idToChunkMap := by
  intro moved
  induction moved with
  | nil =>
    intro st st' h k _
    cases h
    rfl
  | cons cid rest ih =>
    intro st st' h k hk
    rw [List.foldlM_cons] at h
    cases h1 : chunkMoveC st.1 st.2 cid dev with
    | error e =>
        rw [h1] at h
        cases h
    | ok st1 =>
        rw [h1] at h
        have hk1 : k ≠ cid := fun hc => hk (by simp [hc])
        have hkrest : k ∉ rest := fun hc => hk (by simp [hc])
        calc alookup k st'.2.idToChunkMap
            = alookup k st1.2.idToChunkMap := ih st1 st' h k hkrest
          _ = alookup k st.2.idToChunkMap := by
              obtain ⟨m1, c1⟩ := st1
              exact chunkMoveC_preserves h1 k hk1

theorem updateChunk_keys (cl : ChunkList) (cid : Nat) (v : PSChunk) :
    (updateChunk cl cid v).idToChunkMap.map Prod.fst =
      cl.idToChunkMap.map Prod.fst := by
  show (cl.idToChunkMap.map _).map Prod.fst = _
  rw [List.map_map]
  apply List.map_congr_left
  intro p _
  by_cases hp : p.1 = cid
  · simp [hp]
  · simp [hp]

theorem alookup_updateChunk_self :
    ∀ (l : List (Nat × PSChunk)) (cid : Nat) (ch v : PSChunk),
    alookup cid l = some ch →
    alookup cid (l.map (fun p => if p.1 = cid then (cid, v) else p)) = some v := by
  intro l
  induction l with
  | nil =>
    intro cid ch v h
    cases h
  | cons p rest ih =>
    intro cid ch v h
    obtain ⟨a, b⟩ := p
    by_cases ha : a = cid
    · rw [List.map_cons, if_pos ha, alookup, if_pos rfl]
    · rw [alookup, if_neg ha] at h
      rw [List.map_cons, if_neg ha, alookup, if_neg ha]
      exact ih cid ch v h

theorem lookupChunk_updateChunk_self {cl : ChunkList} {cid : Nat}
    {ch : PSChunk} (v : PSChunk) (h : lookupChunk cl cid = some ch) :
    lookupChunk (updateChunk cl cid v) cid = some v :=
  alookup_updateChunk_self cl.idToChunkMap cid ch v h

theorem appendMoment_core (c : PSChunk) (m : Nat) (d : TorchDevice) :
    (c.appendMoment m d).core = c.core := by
  cases h : d.devType <;> simp [PSChunk.appendMoment, PSChunk.core, h]

theorem coreMove_state (mgr : Manager) (ch : PSChunk) (dev : TorchDevice) :
    (coreMove mgr ch dev).2.state = ch.state := by
  unfold coreMove
  by_cases h : ch.device = some dev
  · rw [if_pos h]
  · rw [if_neg h]

theorem prepareDevice_preserves_nontarget {mgr : Manager} {cl : ChunkList}
    {target : TorchDevice} {need : Nat} {mgr' : Manager} {cl' : ChunkList}
    (hnd : (cl.idToChunkMap.map Prod.fst).Nodup)
    (h : prepareDevice mgr cl target need = .ok (mgr', cl'))
    (cid : Nat) (ch : PSChunk) (hc : lookupChunk cl cid = some ch)
    (hdev : ch.device = none ∨
      ∃ dv, ch.device = some dv ∧ dv.devType ≠ target.devType) :
    lookupChunk cl' cid = some ch := by
  unfold prepareDevice at h
  by_cases hav : mgr.availOf target.devType < (need : Int)
  · rw [if_pos hav] at h
    cases h
  · rw [if_neg hav] at h
    dsimp only at h
    by_cases hex : (need : Int) - mgr.freeOf target.devType ≤ 0
    · rw [if_pos hex] at h
      simp only [Except.ok.injEq, Prod.mk.injEq] at h
      obtain ⟨-, hcl'⟩ := h
      rw [← hcl']
      exact hc
    · rw [if_neg hex] at h
      cases hmv : chunkToMoveOut cl ((need : Int) - mgr.freeOf target.devType)
          target with
      | error e =>
          rw [hmv] at h
          cases h
      | ok moved =>
          rw [hmv] at h
          dsimp only at h
          have hnotin : cid ∉ moved := by
            intro hcontra
            unfold chunkToMoveOut at hmv
            dsimp only at hmv
            by_cases herr : (((pickVictims ((need : Int) - mgr.freeOf target.devType)
                0 (sortedCandidates cl target.devType)).1 : Nat) : Int) <
                (need : Int) - mgr.freeOf target.devType
            · rw [if_pos herr] at hmv
              cases hmv
            · rw [if_neg herr] at hmv
              injection hmv with hmv
              rw [← hmv] at hcontra
              obtain ⟨ch', hch'⟩ := pickVictims_mem _ _ 0 cid hcontra
              have hcand : (cid, ch') ∈ candidates cl target.devType :=
                (sortedCandidates_perm cl target.devType).mem_iff.mp hch'
              obtain ⟨hmem, -, -, dv', hdv', hdvt⟩ := mem_candidates_props hcand
              have hl' : alookup cid cl.idToChunkMap = some ch' :=
                alookup_eq_of_mem_nodup hmem hnd
              have hcheq : ch = ch' := by
                have := hc.symm.trans hl'
                injection this
              subst hcheq
              rcases hdev with hnone | ⟨dv, hdv, hne⟩
              · rw [hnone] at hdv'
                cases hdv'
              · rw [hdv] at hdv'
                injection hdv' with hdv''
                exact hne (hdv'' ▸ hdvt)
          have := foldlM_chunkMoveC_preserves _ moved (mgr, cl) (mgr', cl') h
            cid hnotin
          show alookup cid cl'.idToChunkMap = some ch
          rw [this]
          exact hc

theorem accessChunkGo_post {mgr : Manager} {clx : ChunkList} {cid : Nat}
    {chx : PSChunk} {dev : TorchDevice} {mgr1 : Manager} {cl1 : ChunkList}
    {a1 : AccessAction}
    (hndx : (clx.idToChunkMap.map Prod.fst).Nodup)
    (hlx : lookupChunk clx cid = some chx)
    (h : accessChunkGo mgr clx cid chx dev = .ok (mgr1, cl1, a1)) :
    ∃ c, lookupChunk cl1 cid = some c ∧
      c.device.map TorchDevice.devType = some dev.devType ∧
      c.state ≠ .RELEASED := by
  unfold accessChunkGo at h
  by_cases hrel : chx.state = .RELEASED
  · rw [if_pos hrel] at h
    cases hp : prepareDevice mgr clx dev chx.chunkSpace with
    | error e =>
        rw [hp] at h
        cases h
    | ok p =>
        rw [hp] at h
        obtain ⟨mgrp, clp⟩ := p
        dsimp only at h
        cases hl2 : lookupChunk clp cid with
        | none =>
            rw [hl2] at h
            cases h
        | some ch2 =>
            rw [hl2] at h
            dsimp only at h
            simp only [Except.ok.injEq, Prod.mk.injEq] at h
            obtain ⟨-, hcl1, -⟩ := h
            refine ⟨{ ch2 with device := some dev, state := .FREE }, ?_, rfl, by simp⟩
            rw [← hcl1]
            exact lookupChunk_updateChunk_self _ hl2
  · rw [if_neg hrel] at h
    cases hdv : chx.device with
    | none =>
        rw [hdv] at h
        cases h
    | some d0 =>
        rw [hdv] at h
        dsimp only at h
        by_cases hdt : d0.devType ≠ dev.devType
        · rw [if_pos (by simpa using hdt)] at h
          cases hp : prepareDevice mgr clx dev chx.chunkSpace with
          | error e =>
              rw [hp] at h
              cases h
          | ok p =>
              rw [hp] at h
              obtain ⟨mgrp, clp⟩ := p
              dsimp only at h
              cases hl2 : lookupChunk clp cid with
              | none =>
                  rw [hl2] at h
                  cases h
              | some ch2 =>
                  rw [hl2] at h
                  dsimp only at h
                  by_cases hassert :
                      ((coreMove mgrp ch2 dev).2.device.map TorchDevice.devType) ≠
                        some dev.devType
                  · rw [if_pos (by simpa using hassert)] at h
                    cases h
                  · rw [if_neg (by simpa using hassert)] at h
                    simp only [Except.ok.injEq, Prod.mk.injEq] at h
                    obtain ⟨-, hcl1, -⟩ := h
                    have hpres := prepareDevice_preserves_nontarget hndx hp cid
                      chx hlx (Or.inr ⟨d0, hdv, hdt⟩)
                    have hch2 : ch2 = chx := by
                      have := hl2.symm.trans hpres
                      injection this
                    refine ⟨(coreMove mgrp ch2 dev).2, ?_, ?_, ?_⟩
                    · rw [← hcl1]
                      exact lookupChunk_updateChunk_self _ hl2
                    · by_contra hcontra
                      exact hassert hcontra
                    · rw [coreMove_state, hch2]
                      exact hrel
        · rw [if_neg (by simpa using hdt)] at h
          simp only [Except.ok.injEq, Prod.mk.injEq] at h
          obtain ⟨-, hcl1, -⟩ := h
          refine ⟨chx, ?_, ?_, hrel⟩
          · rw [← hcl1]
            exact hlx
          · rw [hdv]
            rw [not_not] at hdt
            show some d0.devType = some dev.devType
            rw [hdt]

theorem accessChunk_noop {mgr : Manager} {cl : ChunkList} {cid : Nat}
    {dev : TorchDevice} {c : PSChunk}
    (hc : lookupChunk cl cid = some c) (hrel : c.state ≠ .RELEASED)
    (hdev : c.device.map TorchDevice.devType = some dev.devType) :
    ∃ cl2, accessChunk mgr cl cid dev = .ok (mgr, cl2, .noop) ∧
      ∀ k, (lookupChunk cl2 k).map PSChunk.core =
        (lookupChunk cl k).map PSChunk.core := by
  obtain ⟨dv, hdv, hdvt⟩ : ∃ dv, c.device = some dv ∧ dv.devType = dev.devType := by
    cases hcd : c.device with
    | none =>
        rw [hcd] at hdev
        cases hdev
    | some dv =>
        rw [hcd] at hdev
        injection hdev with h
        exact ⟨dv, rfl, h⟩
  unfold accessChunk
  rw [hc]
  dsimp only
  by_cases hw : mgr.isWarmup
  · rw [if_pos hw, if_pos hw]
    unfold accessChunkGo
    have hst : (c.appendMoment mgr.curMom dev).state = c.state :=
      appendMoment_state c mgr.curMom dev
    rw [if_neg (by rw [hst]; exact hrel)]
    rw [appendMoment_device, hdv]
    dsimp only
    rw [if_neg (by simp [hdvt])]
    refine ⟨updateChunk cl cid (c.appendMoment mgr.curMom dev), rfl, ?_⟩
    intro k
    by_cases hk : k = cid
    · subst hk
      rw [lookupChunk_updateChunk_self (c.appendMoment mgr.curMom dev) hc, hc]
      simp [appendMoment_core]
    · show (alookup k _).map _ = _
      rw [alookup_updateChunk_ne cl cid _ k hk]
      rfl
  · rw [if_neg hw, if_neg hw]
    unfold accessChunkGo
    rw [if_neg hrel, hdv]
    dsimp only
    rw [if_neg (by simp [hdvt])]
    exact ⟨cl, rfl, fun k => rfl⟩

end Core

namespace Client

theorem getStatusGo_compute (l : List TensorInfo) : ∀ flag,
    (getStatusGo flag l = .COMPUTE ↔ ∃ i ∈ l, i.status = .COMPUTE) := by
  induction l with
  | nil => intro flag; cases flag <;> simp [getStatusGo]
  | cons i rest ih =>
    intro flag
    by_cases hc : i.status = .COMPUTE
    · simp [getStatusGo, hc]
    · by_cases hf : i.status = .FREE
      · simp only [getStatusGo, if_neg hc, hf]
        simpa [hc] using ih flag
      · simp only [getStatusGo, if_neg hc, if_pos (by simpa using hf)]
        simpa [hc] using ih false

theorem getStatusGo_noncompute (l : List TensorInfo)
    (h : ∀ i ∈ l, i.status ≠ .COMPUTE) : ∀ flag,
    getStatusGo flag l =
      if flag = true ∧ ∀ i ∈ l, i.status = .FREE then .FREE else .HOLD := by
  induction l with
  | nil =>
      intro flag
      cases flag <;> simp [getStatusGo]
  | cons i rest ih =>
    intro flag
    have hc : ¬ i.status = .COMPUTE := h i (by simp)
    have hrest : ∀ j ∈ rest, j.status ≠ .COMPUTE := fun j hj => h j (by simp [hj])
    by_cases hf : i.status = .FREE
    · simp only [getStatusGo, if_neg hc, hf]
      rw [if_neg (by simp)]
      rw [ih hrest flag]
      by_cases hall : ∀ j ∈ rest, j.status = .FREE
      · simp [hall, hf]
      · simp only [hall, and_false, if_neg]
        have : ¬ ∀ j ∈ i :: rest, j.status = .FREE := by
          intro hcontra
          exact hall (fun j hj => hcontra j (by simp [hj]))
        simp [this, hall]
    · simp only [getStatusGo, if_neg hc, if_pos (by simpa using hf)]
      rw [ih hrest false]
      simp [hf]

theorem mem_sortedInfos {l : List TensorInfo} {i : TensorInfo} :
    i ∈ sortedInfos l ↔ i ∈ l := by
  simp [sortedInfos, List.mem_insertionSort]

end Client

namespace Client

theorem findOffset_filter (cap n : Nat) : ∀ (l : List TensorInfo) (pe : Nat),
    findOffset cap n pe l =
      findOffset cap n pe (l.filter (fun i => decide (i.status ≠ PSTensorStatus.FREE))) := by
  intro l
  induction l with
  | nil => intro pe; rfl
  | cons i rest ih =>
    intro pe
    by_cases hf : i.status = .FREE
    · rw [findOffset, if_pos hf, List.filter_cons_of_neg (by simp [hf])]
      exact ih pe
    · rw [findOffset, if_neg hf, List.filter_cons_of_pos (by simpa using hf)]
      rw [findOffset, if_neg hf]
      by_cases hgap : (n : Int) ≤ (i.start : Int) - (pe : Int)
      · rw [if_pos hgap, if_pos hgap]
      · rw [if_neg hgap, if_neg hgap]
        exact ih _

theorem findOffset_some_split (cap n : Nat) :
    ∀ (l : List TensorInfo) (pe off : Nat),
    (∀ i ∈ l, i.status ≠ .FREE) → findOffset cap n pe l = some off →
    ∃ gsize pre post, gapsFrom cap pe l = pre ++ (off, gsize) :: post ∧
      (n : Int) ≤ gsize ∧ ∀ g ∈ pre, g.2 < (n : Int) := by
  intro l
  induction l with
  | nil =>
    intro pe off _ h
    rw [findOffset] at h
    by_cases hc : (n : Int) ≤ (cap : Int) - (pe : Int)
    · rw [if_pos hc] at h
      cases h
      exact ⟨(cap : Int) - (pe : Int), [], [], rfl, hc, by simp⟩
    · rw [if_neg hc] at h
      cases h
  | cons i rest ih =>
    intro pe off hnf h
    have hif : i.status ≠ .FREE := hnf i (by simp)
    rw [findOffset, if_neg hif] at h
    by_cases hgap : (n : Int) ≤ (i.start : Int) - (pe : Int)
    · rw [if_pos hgap] at h
      cases h
      exact ⟨(i.start : Int) - (pe : Int), [], gapsFrom cap (i.start + i.numel) rest,
        rfl, hgap, by simp⟩
    · rw [if_neg hgap] at h
      obtain ⟨gsize, pre, post, heq, hle, hpre⟩ :=
        ih (i.start + i.numel) off (fun j hj => hnf j (by simp [hj])) h
      refine ⟨gsize, (pe, (i.start : Int) - (pe : Int)) :: pre, post, ?_, hle, ?_⟩
      · rw [gapsFrom, heq]
        rfl
      · intro g hg
        rcases List.mem_cons.mp hg with hg | hg
        · subst hg
          omega
        · exact hpre g hg

theorem findOffset_none_iff (cap n : Nat) :
    ∀ (l : List TensorInfo) (pe : Nat), (∀ i ∈ l, i.status ≠ .FREE) →
    (findOffset cap n pe l = none ↔ ∀ g ∈ gapsFrom cap pe l, g.2 < (n : Int)) := by
  intro l
  induction l with
  | nil =>
    intro pe _
    rw [findOffset, gapsFrom]
    by_cases hc : (n : Int) ≤ (cap : Int) - (pe : Int)
    · rw [if_pos hc]
      constructor
      · intro h; cases h
      · intro h
        have := h (pe, (cap : Int) - (pe : Int)) (by simp)
        omega
    · rw [if_neg hc]
      constructor
      · intro _ g hg
        rcases List.mem_singleton.mp hg with rfl
        simpa using hc
      · intro _; rfl
  | cons i rest ih =>
    intro pe hnf
    have hif : i.status ≠ .FREE := hnf i (by simp)
    rw [findOffset, if_neg hif, gapsFrom]
    by_cases hgap : (n : Int) ≤ (i.start : Int) - (pe : Int)
    · rw [if_pos hgap]
      constructor
      · intro h; cases h
      · intro h
        have := h (pe, (i.start : Int) - (pe : Int)) (by simp)
        simp at this
        omega
    · rw [if_neg hgap]
      rw [ih (i.start + i.numel) (fun j hj => hnf j (by simp [hj]))]
      constructor
      · intro h g hg
        rcases List.mem_cons.mp hg with rfl | hg
        · simpa using hgap
        · exact h g hg
      · intro h g hg
        exact h g (by simp [hg])

theorem zeroRange_get : ∀ (p : List Int) (off n j : Nat), j < n →
    off + j < p.length → (zeroRange p off n).get? (off + j) = some 0 := by
  intro p
  induction p with
  | nil =>
    intro off n j _ hlen
    simp at hlen
  | cons x xs ih =>
    intro off n j hj hlen
    cases n with
    | zero => omega
    | succ m =>
      cases off with
      | zero =>
        rw [zeroRange]
        cases j with
        | zero => rfl
        | succ k =>
          have := ih 0 (m + 1 - 1) k (by omega) (by simp at hlen ⊢; omega)
          simpa using this
      | succ ko =>
        rw [zeroRange]
        have := ih ko (m + 1) j hj (by simp at hlen ⊢; omega)
        simpa [Nat.succ_add] using this

theorem dictFind_put (k k' : Nat) (v : ClientParam) :
    ∀ d : List (Nat × ClientParam),
    dictFind k (dictPut k' v d) =
      if k' = k then (dictFind k d).map (fun _ => v) else dictFind k d := by
  intro d
  induction d with
  | nil =>
    by_cases h : k' = k <;> simp [dictPut, dictFind, h]
  | cons p rest ih =>
    obtain ⟨a, b⟩ := p
    by_cases ha : a = k'
    · subst ha
      rw [dictPut, List.map_cons, if_pos rfl]
      by_cases hk : a = k
      · rw [dictFind, if_pos hk, if_pos hk, dictFind, if_pos hk]
        rfl
      · rw [dictFind, if_neg hk, if_neg hk, dictFind, if_neg hk]
        show dictFind k (dictPut a v rest) = dictFind k rest
        rw [ih, if_neg hk]
    · rw [dictPut, List.map_cons, if_neg ha]
      by_cases hk : a = k
      · subst hk
        rw [dictFind, if_pos rfl, if_neg (by intro h; exact ha h.symm), dictFind, if_pos rfl]
      · rw [dictFind, if_neg hk, dictFind, if_neg hk]
        exact ih

theorem repoint_untouched (dt : DType) (tg : TorchDevice) :
    ∀ (l : List TensorInfo) (dd gd dd' gd' : List (Nat × ClientParam)),
    repoint dt tg dd gd l = .ok (dd', gd') →
    ∀ k, k ∉ l.map (fun i => i.tid) →
      dictFind k dd' = dictFind k dd ∧ dictFind k gd' = dictFind k gd := by
  intro l
  induction l with
  | nil =>
    intro dd gd dd' gd' h k _
    cases h
    exact ⟨rfl, rfl⟩
  | cons i rest ih =>
    intro dd gd dd' gd' h k hk
    have hki : k ≠ i.tid := by
      intro hcontra
      exact hk (by simp [hcontra])
    have hkrest : k ∉ rest.map (fun i => i.tid) := by
      intro hcontra
      exact hk (by simp [hcontra])
    rw [repoint] at h
    by_cases hf : i.status = .FREE
    · rw [if_pos hf] at h
      exact ih dd gd dd' gd' h k hkrest
    · rw [if_neg hf] at h
      cases hd : dictFind i.tid dd with
      | some p =>
          rw [hd] at h
          dsimp only at h
          have := ih _ _ _ _ h k hkrest
          rw [dictFind_put k i.tid _ dd] at this
          rw [if_neg (fun hx => hki hx.symm)] at this
          exact this
      | none =>
          rw [hd] at h
          cases hg : dictFind i.tid gd with
          | some p =>
              rw [hg] at h
              dsimp only at h
              have := ih _ _ _ _ h k hkrest
              rw [dictFind_put k i.tid _ gd] at this
              rw [if_neg (fun hx => hki hx.symm)] at this
              exact this
          | none =>
              rw [hg] at h
              dsimp only at h
              cases h

theorem repoint_resolves (dt : DType) (tg : TorchDevice) :
    ∀ (l : List TensorInfo) (dd gd dd' gd' : List (Nat × ClientParam)),
    (l.map (fun i => i.tid)).Nodup →
    repoint dt tg dd gd l = .ok (dd', gd') →
    ∀ i ∈ l, i.status ≠ .FREE →
      (∀ p, dictFind i.tid dd = some p →
        dictFind i.tid dd' = some
          { p with
            psDataTensor := some (mkView i.start i.numel p.psShape tg dt)
            dataT := some (mkView i.start i.numel p.psShape tg dt) }) ∧
      (dictFind i.tid dd = none → ∀ p, dictFind i.tid gd = some p →
        dictFind i.tid gd' = some
          { p with
            psGradTensor := some (mkView i.start i.numel p.psShape tg dt)
            gradT := none }) := by
  intro l
  induction l with
  | nil =>
    intro dd gd dd' gd' _ _ i hi
    cases hi
  | cons j rest ih =>
    intro dd gd dd' gd' hnd h i hi hnz
    have hndrest : (rest.map (fun i => i.tid)).Nodup := (List.nodup_cons.mp hnd).2
    have hjrest : j.tid ∉ rest.map (fun i => i.tid) := (List.nodup_cons.mp hnd).1
    rw [repoint] at h
    rcases List.mem_cons.mp hi with rfl | hirest
    · rw [if_neg hnz] at h
      cases hd : dictFind i.tid dd with
      | some p0 =>
          rw [hd] at h
          dsimp only at h
          have hunt := repoint_untouched dt tg rest _ _ _ _ h i.tid hjrest
          constructor
          · intro p hp
            cases hp
            rw [hunt.1, dictFind_put, if_pos rfl, hd]
            rfl
          · intro hnone
            cases hnone
      | none =>
          rw [hd] at h
          cases hg : dictFind i.tid gd with
          | some p0 =>
              rw [hg] at h
              dsimp only at h
              have hunt := repoint_untouched dt tg rest _ _ _ _ h i.tid hjrest
              constructor
              · intro p hp
                cases hp
              · intro _ p hp
                cases hp
                rw [hunt.2, dictFind_put, if_pos rfl, hg]
                rfl
          | none =>
              rw [hg] at h
              dsimp only at h
              cases h
    · have hij : i.tid ≠ j.tid := by
        intro hcontra
        exact hjrest (hcontra ▸ (List.mem_map.mpr ⟨i, hirest, rfl⟩))
      by_cases hf : j.status = .FREE
      · rw [if_pos hf] at h
        exact ih dd gd dd' gd' hndrest h i hirest hnz
      · rw [if_neg hf] at h
        cases hd : dictFind j.tid dd with
        | some p0 =>
            rw [hd] at h
            dsimp only at h
            have hrec := ih _ gd dd' gd' hndrest h i hirest hnz
            rw [dictFind_put i.tid j.tid _ dd, if_neg hij.symm] at hrec
            exact hrec
        | none =>
            rw [hd] at h
            cases hg : dictFind j.tid gd with
            | some p0 =>
                rw [hg] at h
                dsimp only at h
                have hrec := ih dd _ dd' gd' hndrest h i hirest hnz
                rw [dictFind_put i.tid j.tid _ gd, if_neg hij.symm] at hrec
                exact hrec
            | none =>
                rw [hg] at h
                cases h

theorem repoint_unresolved_error (dt : DType) (tg : TorchDevice) :
    ∀ (l : List TensorInfo) (dd gd : List (Nat × ClientParam)),
    (∃ i ∈ l, i.status ≠ .FREE ∧ dictFind i.tid dd = none ∧
      dictFind i.tid gd = none) →
    ∃ e, repoint dt tg dd gd l = .error e := by
  intro l
  induction l with
  | nil =>
    intro dd gd h
    obtain ⟨i, hi, -⟩ := h
    cases hi
  | cons j rest ih =>
    intro dd gd h
    obtain ⟨i, hi, hnz, hdd, hgd⟩ := h
    rw [repoint]
    rcases List.mem_cons.mp hi with rfl | hirest
    · rw [if_neg hnz, hdd, hgd]
      exact ⟨"RuntimeError", rfl⟩
    · by_cases hf : j.status = .FREE
      · rw [if_pos hf]
        exact ih dd gd ⟨i, hirest, hnz, hdd, hgd⟩
      · rw [if_neg hf]
        cases hd : dictFind j.tid dd with
        | some p0 =>
            have hij : i.tid ≠ j.tid := by
              intro hcontra
              rw [hcontra, hd] at hdd
              cases hdd
            refine ih _ gd ⟨i, hirest, hnz, ?_, hgd⟩
            rw [dictFind_put i.tid j.tid _ dd, if_neg hij.symm]
            exact hdd
        | none =>
            cases hg : dictFind j.tid gd with
            | some p0 =>
                have hij : i.tid ≠ j.tid := by
                  intro hcontra
                  rw [hcontra, hg] at hgd
                  cases hgd
                refine ih dd _ ⟨i, hirest, hnz, hdd, ?_⟩
                rw [dictFind_put i.tid j.tid _ gd, if_neg hij.symm]
                exact hgd
            | none =>
                exact ⟨"RuntimeError", rfl⟩

theorem addInfo_fresh {l : List TensorInfo} {x : TensorInfo}
    (h : ∀ i ∈ l, i.tid ≠ x.tid) : addInfo l x = l ++ [x] := by
  unfold addInfo
  rw [if_neg]
  simp only [List.any_eq_true, decide_eq_true_eq, not_exists, not_and]
  intro i hi
  exact h i hi

theorem chain_all_ge : ∀ (l : List TensorInfo) (i : TensorInfo),
    List.Chain' (fun a b => a.start + a.numel ≤ b.start) (i :: l) →
    ∀ j ∈ l, i.start + i.numel ≤ j.start := by
  intro l
  induction l with
  | nil =>
    intro i _ j hj
    cases hj
  | cons b rest ih =>
    intro i hch j hj
    rw [List.chain'_cons] at hch
    obtain ⟨hib, hrest⟩ := hch
    rcases List.mem_cons.mp hj with rfl | hj'
    · exact hib
    · have := ih b hrest j hj'
      omega

theorem findOffset_avoids (cap n : Nat) :
    ∀ (l : List TensorInfo) (pe off : Nat),
    (∀ i ∈ l, i.status ≠ .FREE) →
    List.Chain' (fun a b => a.start + a.numel ≤ b.start) l →
    (∀ i ∈ l, pe ≤ i.start) →
    findOffset cap n pe l = some off →
    pe ≤ off ∧ ∀ i ∈ l, off + n ≤ i.start ∨ i.start + i.numel ≤ off := by
  intro l
  induction l with
  | nil =>
    intro pe off _ _ _ h
    rw [findOffset] at h
    by_cases hc : (n : Int) ≤ (cap : Int) - (pe : Int)
    · rw [if_pos hc] at h
      cases h
      exact ⟨Nat.le_refl _, by intro i hi; cases hi⟩
    · rw [if_neg hc] at h
      cases h
  | cons i rest ih =>
    intro pe off hnf hch hpe h
    have hif : i.status ≠ .FREE := hnf i (by simp)
    rw [findOffset, if_neg hif] at h
    by_cases hgap : (n : Int) ≤ (i.start : Int) - (pe : Int)
    · rw [if_pos hgap] at h
      cases h
      refine ⟨Nat.le_refl _, ?_⟩
      intro j hj
      rcases List.mem_cons.mp hj with rfl | hj'
      · left
        omega
      · left
        have h1 : i.start + i.numel ≤ j.start := chain_all_ge rest i hch j hj'
        omega
    · rw [if_neg hgap] at h
      have hpe' : ∀ j ∈ rest, i.start + i.numel ≤ j.start := chain_all_ge rest i hch
      obtain ⟨hple, hdisj⟩ := ih (i.start + i.numel) off
        (fun j hj => hnf j (by simp [hj])) hch.tail hpe' h
      refine ⟨?_, ?_⟩
      · have := hpe i (by simp)
        omega
      · intro j hj
        rcases List.mem_cons.mp hj with rfl | hj'
        · right
          omega
        · exact hdisj j hj'

theorem reachP_invariant : ∀ {pos : Bool} {c : CChunk}, ReachP pos c →
    pos = true → residentDisjoint c ∧ ∀ i ∈ c.infos, 0 < i.numel := by
  intro pos c h
  induction h with
  | init cid cap dt dev =>
      intro _
      exact ⟨List.Pairwise.nil, by intro i hi; cases hi⟩
  | @alloc c shape tid st now off c' hre hfresh hposn heq ih =>
      intro hpos
      obtain ⟨hdisj, hposi⟩ := ih hpos
      have hn : 0 < shape.prod := hposn hpos
      unfold tryAllocate at heq
      dsimp only at heq
      cases hf : findOffset c.capacity shape.prod 0 (sortedInfos c.infos) with
      | none =>
          rw [hf] at heq
          cases heq
      | some o =>
          rw [hf] at heq
          simp only [Option.some.injEq, Prod.mk.injEq] at heq
          obtain ⟨ho, hc'⟩ := heq
          subst ho
          -- facts about the non-free sorted items
          have hnfree : ∀ i ∈ nonFreeSorted c, i.status ≠ .FREE := by
            intro i hi
            have := (List.mem_filter.mp hi).2
            simpa using this
          have hmemnf : ∀ i ∈ nonFreeSorted c, i ∈ c.infos := by
            intro i hi
            exact mem_sortedInfos.mp (List.mem_filter.mp hi).1
          have hsorted : (nonFreeSorted c).Pairwise infoLE :=
            (List.sorted_insertionSort infoLE c.infos).filter _
          have hsymm : ∀ {a b : TensorInfo},
              (a.status = .FREE ∨ b.status = .FREE ∨
                a.start + a.numel ≤ b.start ∨ b.start + b.numel ≤ a.start) →
              (b.status = .FREE ∨ a.status = .FREE ∨
                b.start + b.numel ≤ a.start ∨ a.start + a.numel ≤ b.start) := by
            intro a b hab
            tauto
          have hdisjs : (sortedInfos c.infos).Pairwise (fun a b =>
              a.status = .FREE ∨ b.status = .FREE ∨
              a.start + a.numel ≤ b.start ∨ b.start + b.numel ≤ a.start) :=
            ((List.perm_insertionSort infoLE c.infos).pairwise_iff hsymm).mpr hdisj
          have hdisjnf : (nonFreeSorted c).Pairwise (fun a b =>
              a.start + a.numel ≤ b.start ∨ b.start + b.numel ≤ a.start) := by
            refine (hdisjs.filter _).imp_of_mem ?_
            intro a b ha hb hab
            rcases hab with hfa | hfb | hd | hd
            · exact absurd hfa (hnfree a ha)
            · exact absurd hfb (hnfree b hb)
            · exact Or.inl hd
            · exact Or.inr hd
          have hchain : List.Chain' (fun a b => a.start + a.numel ≤ b.start)
              (nonFreeSorted c) := by
            refine List.Pairwise.chain' ?_
            refine (hsorted.and hdisjnf).imp_of_mem ?_
            intro a b ha hb hab
            obtain ⟨hle, hd⟩ := hab
            have hbpos : 0 < b.numel := hposi b (hmemnf b hb)
            unfold infoLE at hle
            rcases hd with hd | hd
            · exact hd
            · omega
          have havoid := findOffset_avoids c.capacity shape.prod (nonFreeSorted c)
            0 o hnfree hchain (fun i _ => Nat.zero_le _)
            ((findOffset_filter c.capacity shape.prod (sortedInfos c.infos) 0) ▸ hf)
          have hinfos : c'.infos =
              c.infos ++ [⟨o, tid, shape.prod, st⟩] := by
            rw [← hc']
            show addInfo c.infos ⟨o, tid, shape.prod, st⟩ = _
            exact addInfo_fresh hfresh
          constructor
          · show c'.infos.Pairwise _
            rw [hinfos, List.pairwise_append]
            refine ⟨hdisj, by simp, ?_⟩
            intro a ha b hb
            rcases List.mem_singleton.mp hb with rfl
            by_cases hafree : a.status = .FREE
            · exact Or.inl hafree
            · have hanf : a ∈ nonFreeSorted c := by
                refine List.mem_filter.mpr ⟨mem_sortedInfos.mpr ha, by simpa using hafree⟩
              rcases havoid.2 a hanf with hd | hd
              · right; right; right
                exact hd
              · right; right; left
                exact hd
          · intro i hi
            rw [hinfos] at hi
            rcases List.mem_append.mp hi with hi | hi
            · exact hposi i hi
            · rcases List.mem_singleton.mp hi with rfl
              exact hn
  | @setSt c tid st hre hlegal ih =>
      intro hpos
      obtain ⟨hdisj, hposi⟩ := ih hpos
      constructor
      · show (c.infos.map _).Pairwise _
        rw [List.pairwise_map]
        refine hdisj.imp_of_mem ?_
        intro a b ha hb hab
        by_cases hat : a.tid = tid
        · by_cases hbt : b.tid = tid
          · rcases hab with hfa | hfb | hd | hd
            · by_cases hstf : st = .FREE
              · simp [hat, hstf]
              · exact absurd hfa (hlegal hstf a ha hat)
            · by_cases hstf : st = .FREE
              · simp [hbt, hstf]
              · exact absurd hfb (hlegal hstf b hb hbt)
            · simp only [if_pos hat, if_pos hbt]
              right; right; left
              exact hd
            · simp only [if_pos hat, if_pos hbt]
              right; right; right
              exact hd
          · rcases hab with hfa | hfb | hd | hd
            · by_cases hstf : st = .FREE
              · simp [hat, hstf]
              · exact absurd hfa (hlegal hstf a ha hat)
            · simp only [if_pos hat, if_neg hbt]
              right; left
              exact hfb
            · simp only [if_pos hat, if_neg hbt]
              right; right; left
              exact hd
            · simp only [if_pos hat, if_neg hbt]
              right; right; right
              exact hd
        · by_cases hbt : b.tid = tid
          · rcases hab with hfa | hfb | hd | hd
            · simp only [if_neg hat, if_pos hbt]
              left
              exact hfa
            · by_cases hstf : st = .FREE
              · simp [hbt, hstf]
              · exact absurd hfb (hlegal hstf b hb hbt)
            · simp only [if_neg hat, if_pos hbt]
              right; right; left
              exact hd
            · simp only [if_neg hat, if_pos hbt]
              right; right; right
              exact hd
          · simp only [if_neg hat, if_neg hbt]
            exact hab
      · intro i hi
        obtain ⟨j, hj, hji⟩ := List.mem_map.mp hi
        have := hposi j hj
        by_cases hjt : j.tid = tid
        · rw [if_pos hjt] at hji
          rw [← hji]
          exact this
        · rw [if_neg hjt] at hji
          rw [← hji]
          exact this

end Client

/-! ## Claim theorems -/

open Core Client

/-- C10: `ChunkList.generated_chunk_id` is class-level state: over any
process history of constructing `ChunkList` instances and calling
`generate_chunk_id`, starting from the declared initial value `-1`, the
returned ids are exactly `0, 1, 2, …` (one per call, regardless of how many
fresh instances are interleaved) and strictly increase, so no id is ever
reused and a fresh instance never restarts numbering. -/
theorem C10_generated_chunk_id_global (ops : List CLOp) :
    (runCounter (-1) ops).2 =
      List.map (fun k : Nat => (k : Int)) (List.range (ops.count .genId)) ∧
    (runCounter (-1) ops).2.Pairwise (· < ·) := by
  have h := runCounter_ids ops (-1)
  constructor
  · rw [h]
    apply List.map_congr_left
    intro a _
    omega
  · rw [h]
    refine List.Pairwise.map _ (fun a b hab => ?_) (List.pairwise_lt_range _)
    omega

/-- C5: `Chunk.get_status` returns `COMPUTE` iff some item has status
`COMPUTE`; otherwise it returns `HOLD` iff some item has a status other than
`FREE`; otherwise (including the zero-item chunk) it returns `FREE`. -/
theorem C5_get_status (c : CChunk) :
    (getStatusC c = .COMPUTE ↔ ∃ i ∈ c.infos, i.status = .COMPUTE) ∧
    ((¬ ∃ i ∈ c.infos, i.status = .COMPUTE) →
      (getStatusC c = .HOLD ↔ ∃ i ∈ c.infos, i.status ≠ .FREE)) ∧
    ((¬ ∃ i ∈ c.infos, i.status ≠ .FREE) → getStatusC c = .FREE) ∧
    (c.infos = [] → getStatusC c = .FREE) := by
  refine ⟨?_, ?_, ?_, ?_⟩
  · unfold getStatusC
    by_cases h0 : c.infos.length = 0
    · rw [if_pos h0]
      rw [List.length_eq_zero] at h0
      simp [h0]
    · rw [if_neg h0]
      rw [getStatusGo_compute]
      constructor
      · rintro ⟨i, hi, hs⟩
        exact ⟨i, mem_sortedInfos.mp hi, hs⟩
      · rintro ⟨i, hi, hs⟩
        exact ⟨i, mem_sortedInfos.mpr hi, hs⟩
  · intro hnc
    unfold getStatusC
    by_cases h0 : c.infos.length = 0
    · rw [if_pos h0]
      rw [List.length_eq_zero] at h0
      simp [h0]
    · rw [if_neg h0]
      have hnc' : ∀ i ∈ sortedInfos c.infos, i.status ≠ .COMPUTE := by
        intro i hi hcomp
        exact hnc ⟨i, mem_sortedInfos.mp hi, hcomp⟩
      rw [getStatusGo_noncompute _ hnc' true]
      by_cases hall : ∀ i ∈ sortedInfos c.infos, i.status = .FREE
      · rw [if_pos ⟨rfl, hall⟩]
        constructor
        · intro h; cases h
        · rintro ⟨i, hi, hne⟩
          exact absurd (hall i (mem_sortedInfos.mpr hi)) hne
      · rw [if_neg (by simp [hall])]
        constructor
        · intro _
          push_neg at hall
          obtain ⟨i, hi, hne⟩ := hall
          exact ⟨i, mem_sortedInfos.mp hi, hne⟩
        · intro _; rfl
  · intro hfree
    unfold getStatusC
    by_cases h0 : c.infos.length = 0
    · rw [if_pos h0]
    · rw [if_neg h0]
      have hnc' : ∀ i ∈ sortedInfos c.infos, i.status ≠ .COMPUTE := by
        intro i hi hcomp
        exact hfree ⟨i, mem_sortedInfos.mp hi, by simp [hcomp]⟩
      rw [getStatusGo_noncompute _ hnc' true]
      have hall : ∀ i ∈ sortedInfos c.infos, i.status = .FREE := by
        intro i hi
        by_contra hne
        exact hfree ⟨i, mem_sortedInfos.mp hi, hne⟩
      rw [if_pos ⟨rfl, hall⟩]
  · intro h0
    unfold getStatusC
    rw [if_pos (by simp [h0])]

/-- C5 witness: a chunk holding one `COMPUTE` item aggregates to `COMPUTE`,
and the zero-item chunk aggregates to `FREE`. -/
theorem C5_get_status_witness :
    getStatusC ⟨0, 4, .f32, ⟨.cpu, none⟩, [0, 0, 0, 0], [⟨0, 1, 2, .COMPUTE⟩], 0⟩ = .COMPUTE ∧
    getStatusC ⟨0, 4, .f32, ⟨.cpu, none⟩, [0, 0, 0, 0], [], 0⟩ = .FREE := by
  constructor
  · exact (C5_get_status _).1.mpr ⟨⟨0, 1, 2, .COMPUTE⟩, by decide, rfl⟩
  · exact (C5_get_status _).2.2.2 rfl

/-- C3: `prepare_device(target, need)` checks the available chunk memory
first: when it is below `need` the call fails fatally before any victim
selection or chunk move (the embedding returns `.error` without touching the
state); otherwise, when the free chunk memory already covers `need`
(`extra_need_bytes <= 0`), the call returns with the manager and chunk list
unchanged and no victim selected. -/
theorem C3_prepare_device_guards (mgr : Manager) (cl : ChunkList)
    (target : TorchDevice) (need : Nat) :
    (mgr.availOf target.devType < (need : Int) →
      ∃ e, prepareDevice mgr cl target need = .error e) ∧
    ((need : Int) ≤ mgr.availOf target.devType →
      (need : Int) ≤ mgr.freeOf target.devType →
      prepareDevice mgr cl target need = .ok (mgr, cl)) := by
  constructor
  · intro h
    refine ⟨"has not enough space", ?_⟩
    unfold prepareDevice
    rw [if_pos h]
  · intro hav hfree
    unfold prepareDevice
    rw [if_neg (by omega)]
    simp only
    rw [if_pos (by omega)]

/-- C3 witness: with 100 available and 100 free bytes, requesting 50 is a
no-op, and with 10 available, requesting 50 is a fatal error. -/
theorem C3_prepare_device_guards_witness :
    (prepareDevice ⟨false, 0, 100, 100, 100, 100⟩ ⟨0, [], fun _ => []⟩ ⟨.cpu, none⟩ 50 =
      .ok (⟨false, 0, 100, 100, 100, 100⟩, ⟨0, [], fun _ => []⟩)) ∧
    (∃ e, prepareDevice ⟨false, 0, 10, 10, 10, 10⟩ ⟨0, [], fun _ => []⟩ ⟨.cpu, none⟩ 50 =
      .error e) := by
  constructor
  · exact (C3_prepare_device_guards _ _ _ _).2 (by decide) (by decide)
  · exact (C3_prepare_device_guards _ _ _ _).1 (by decide)

/-- C9: `new_chunk` registers lazily.  On success the registered chunk is
the spec-modelled core `Chunk.__init__` result: status `RELEASED`, no
payload (`get_device()` is `None`, `get_payload_space()` is `0`); `new_chunk`
itself never touches the capacity tracker (it does not even take the
manager), and any later successful `access_chunk` on that id is the one that
materializes it (its action is `materialize`). -/
theorem C9_new_chunk_lazy (cl : ChunkList) (cid size elemSize : Nat)
    (ctype : ChunkType) (ws : Nat) (cl' : ChunkList) (info : CommInfo)
    (h : newChunk cl cid size elemSize ctype ws = .ok (cl', info)) :
    lookupChunk cl' cid = some (mkCoreChunk size elemSize) ∧
    (mkCoreChunk size elemSize).state = .RELEASED ∧
    (mkCoreChunk size elemSize).device = none ∧
    (mkCoreChunk size elemSize).payloadSpace = 0 ∧
    (∀ mgr dev res, accessChunk mgr cl' cid dev = .ok res →
      res.2.2 = .materialize) := by
  unfold newChunk at h
  by_cases hdup : (lookupChunk cl cid).isSome
  · rw [if_pos hdup] at h
    cases h
  · rw [if_neg hdup] at h
    have hnone : lookupChunk cl cid = none := by
      cases hl : lookupChunk cl cid
      · rfl
      · rw [hl] at hdup
        simp at hdup
    simp only [Except.ok.injEq, Prod.mk.injEq] at h
    obtain ⟨h1, -⟩ := h
    have hlook : lookupChunk cl' cid = some (mkCoreChunk size elemSize) := by
      rw [← h1]
      exact alookup_append_single hnone
    refine ⟨hlook, rfl, rfl, rfl, ?_⟩
    intro mgr dev res hacc
    unfold accessChunk at hacc
    rw [hlook] at hacc
    dsimp only at hacc
    have hst : ((mkCoreChunk size elemSize).appendMoment mgr.curMom dev).state =
        ChunkState.RELEASED := by
      rw [appendMoment_state]; rfl
    by_cases hw : mgr.isWarmup
    · rw [if_pos hw, if_pos hw] at hacc
      unfold accessChunkGo at hacc
      rw [if_pos hst] at hacc
      cases hp : prepareDevice mgr (updateChunk cl' cid
          ((mkCoreChunk size elemSize).appendMoment mgr.curMom dev)) dev
          ((mkCoreChunk size elemSize).appendMoment mgr.curMom dev).chunkSpace with
      | error e =>
          rw [hp] at hacc
          cases hacc
      | ok p =>
          rw [hp] at hacc
          obtain ⟨mgr1, cl2⟩ := p
          dsimp only at hacc
          cases hl2 : lookupChunk cl2 cid with
          | none =>
              rw [hl2] at hacc
              cases hacc
          | some ch2 =>
              rw [hl2] at hacc
              cases hacc
              rfl
    · rw [if_neg hw, if_neg hw] at hacc
      unfold accessChunkGo at hacc
      rw [if_pos (by rfl : (mkCoreChunk size elemSize).state = ChunkState.RELEASED)] at hacc
      cases hp : prepareDevice mgr cl' dev (mkCoreChunk size elemSize).chunkSpace with
      | error e =>
          rw [hp] at hacc
          cases hacc
      | ok p =>
          rw [hp] at hacc
          obtain ⟨mgr1, cl2⟩ := p
          dsimp only at hacc
          cases hl2 : lookupChunk cl2 cid with
          | none =>
              rw [hl2] at hacc
              cases hacc
          | some ch2 =>
              rw [hl2] at hacc
              cases hacc
              rfl

/-- C9 witness: registering chunk 0 of 4 elements of 2 bytes in an empty
directory yields a `RELEASED`, unmaterialized chunk. -/
theorem C9_new_chunk_lazy_witness :
    lookupChunk
      { localRank := 0
        idToChunkMap := [(0, mkCoreChunk 4 2)]
        typeIdLists := fun t =>
          if t = ChunkType.PARAM_FP16 then ([] : List Nat) ++ [0] else [] } 0 =
      some (mkCoreChunk 4 2) ∧
    (mkCoreChunk 4 2).state = .RELEASED ∧
    (mkCoreChunk 4 2).device = none ∧
    (mkCoreChunk 4 2).payloadSpace = 0 ∧
    (∀ mgr dev res,
      accessChunk mgr
        { localRank := 0
          idToChunkMap := [(0, mkCoreChunk 4 2)]
          typeIdLists := fun t =>
            if t = ChunkType.PARAM_FP16 then ([] : List Nat) ++ [0] else [] } 0 dev =
        .ok res → res.2.2 = .materialize) :=
  C9_new_chunk_lazy ⟨0, [], fun _ => []⟩ 0 4 2 .PARAM_FP16 1 _ ⟨.PARAM_FP16, 0, 0⟩ rfl

/-- C6: `try_allocate` is a first-fit scan over the items in ascending start
order that skips `FREE` items.  On success the returned offset is the start
of the *first* gap (between consecutive non-free items, starting from offset
0, or the tail gap up to the capacity) whose size covers the request; the
allocated range is zero-initialized and the new item is recorded; the call
returns `none` — leaving the chunk untouched — iff no gap is large enough. -/
theorem C6_try_allocate (c : CChunk) (shape : List Nat) (tid : Nat)
    (st : PSTensorStatus) (now : Nat) :
    (∀ off c', tryAllocate c shape tid st now = some (off, c') →
      (∃ gsize pre post, gapsC c = pre ++ (off, gsize) :: post ∧
        (shape.prod : Int) ≤ gsize ∧ ∀ g ∈ pre, g.2 < (shape.prod : Int)) ∧
      (∀ j, j < shape.prod → off + j < c.payload.length →
        c'.payload.get? (off + j) = some 0) ∧
      ((∀ i ∈ c.infos, i.tid ≠ tid) →
        c'.infos = c.infos ++ [⟨off, tid, shape.prod, st⟩])) ∧
    (tryAllocate c shape tid st now = none ↔
      ∀ g ∈ gapsC c, g.2 < (shape.prod : Int)) := by
  have hnf : ∀ i ∈ nonFreeSorted c, i.status ≠ .FREE := by
    intro i hi
    have := (List.mem_filter.mp hi).2
    simpa using this
  have hfo : findOffset c.capacity shape.prod 0 (sortedInfos c.infos) =
      findOffset c.capacity shape.prod 0 (nonFreeSorted c) :=
    findOffset_filter _ _ _ _
  constructor
  · intro off c' h
    unfold tryAllocate at h
    dsimp only at h
    cases hf : findOffset c.capacity shape.prod 0 (sortedInfos c.infos) with
    | none =>
        rw [hf] at h
        cases h
    | some o =>
        rw [hf] at h
        simp only [Option.some.injEq, Prod.mk.injEq] at h
        obtain ⟨ho, hc'⟩ := h
        subst ho
        refine ⟨?_, ?_, ?_⟩
        · exact findOffset_some_split _ _ _ _ _ hnf (hfo ▸ hf)
        · intro j hj hlen
          rw [← hc']
          exact zeroRange_get c.payload _ shape.prod j hj hlen
        · intro hfresh
          rw [← hc']
          show addInfo c.infos _ = _
          exact addInfo_fresh (by intro i hi; exact hfresh i hi)
  · unfold tryAllocate
    dsimp only
    cases hf : findOffset c.capacity shape.prod 0 (sortedInfos c.infos) with
    | none =>
        constructor
        · intro _
          exact (findOffset_none_iff _ _ _ _ hnf).mp (hfo ▸ hf)
        · intro _; rfl
    | some o =>
        constructor
        · intro h
          exact Option.noConfusion h
        · intro h
          have := (findOffset_none_iff _ _ (nonFreeSorted c) 0 hnf).mpr h
          rw [← hfo] at this
          rw [hf] at this
          cases this

/-- C6 witness: in a 10-element chunk with one resident item on `[0, 4)`, a
request for 3 elements is placed at the first adequate gap — offset 4 — and
the range is zeroed. -/
theorem C6_try_allocate_witness :
    (allocateC ⟨0, 10, .f32, ⟨.cpu, none⟩, List.replicate 10 0,
        [⟨0, 1, 4, .HOLD⟩], 0⟩ 4 3 2 .HOLD 5).payload.get? (4 + 0) = some 0 :=
  ((C6_try_allocate ⟨0, 10, .f32, ⟨.cpu, none⟩, List.replicate 10 0,
        [⟨0, 1, 4, .HOLD⟩], 0⟩ [3] 2 .HOLD 5).1 4 _ (by decide)).2.1
    0 (by decide) (by decide)

/-- C4: `Chunk.move` is a no-op (payload, items, manager accounting and
device unchanged) when the chunk is already on the target device; otherwise
every item whose status is not `FREE` is re-pointed through its owning
parameter: after the call the owner's view (`ps_data_tensor`/`data` for a
data item, `ps_grad_tensor` for a grad item, resolved through the
caller-supplied dicts as the source does) is a view into the new payload at
the same start offset with the item's element count, the owner's `ps_shape`
and the chunk's element type; an unresolvable non-released item makes the
call raise.  Item ids are dict keys in the source, hence the `Nodup`
hypothesis. -/
theorem C4_move (mgr : TorchDevice → Int) (c : CChunk)
    (dd gd : List (Nat × ClientParam)) (target : TorchDevice) (now : Nat)
    (hnd : (c.infos.map (fun i => i.tid)).Nodup) :
    (c.cdevice = target → cmove mgr c dd gd target now = .ok (mgr, c, dd, gd)) ∧
    (c.cdevice ≠ target → ∀ mgr' c' dd' gd',
      cmove mgr c dd gd target now = .ok (mgr', c', dd', gd') →
      c'.cdevice = target ∧ c'.payload = c.payload ∧ c'.infos = c.infos ∧
      ∀ i ∈ c.infos, i.status ≠ .FREE →
        (∀ p, dictFind i.tid dd = some p →
          dictFind i.tid dd' = some
            { p with
              psDataTensor := some (mkView i.start i.numel p.psShape target c.dataType)
              dataT := some (mkView i.start i.numel p.psShape target c.dataType) }) ∧
        (dictFind i.tid dd = none → ∀ p, dictFind i.tid gd = some p →
          dictFind i.tid gd' = some
            { p with
              psGradTensor := some (mkView i.start i.numel p.psShape target c.dataType)
              gradT := none })) ∧
    (c.cdevice ≠ target →
      (∃ i ∈ c.infos, i.status ≠ .FREE ∧ dictFind i.tid dd = none ∧
        dictFind i.tid gd = none) →
      ∃ e, cmove mgr c dd gd target now = .error e) := by
  have hnds : ((sortedInfos c.infos).map (fun i => i.tid)).Nodup :=
    (((List.perm_insertionSort infoLE c.infos).map (fun i => i.tid)).nodup_iff).mpr hnd
  refine ⟨?_, ?_, ?_⟩
  · intro he
    unfold cmove
    rw [if_pos he]
  · intro hne mgr' c' dd' gd' h
    unfold cmove at h
    rw [if_neg hne] at h
    dsimp only at h
    cases hr : repoint c.dataType target dd gd (sortedInfos c.infos) with
    | error e =>
        rw [hr] at h
        cases h
    | ok pr =>
        rw [hr] at h
        obtain ⟨dd0, gd0⟩ := pr
        dsimp only at h
        simp only [Except.ok.injEq, Prod.mk.injEq] at h
        obtain ⟨-, hc', hdd0, hgd0⟩ := h
        subst hdd0
        subst hgd0
        refine ⟨by rw [← hc'], by rw [← hc'], by rw [← hc'], ?_⟩
        intro i hi hnz
        exact repoint_resolves c.dataType target (sortedInfos c.infos) dd gd _ _
          hnds hr i (mem_sortedInfos.mpr hi) hnz
  · intro hne hex
    unfold cmove
    rw [if_neg hne]
    dsimp only
    obtain ⟨i, hi, hnz, h1, h2⟩ := hex
    obtain ⟨e, he⟩ := repoint_unresolved_error c.dataType target
      (sortedInfos c.infos) dd gd ⟨i, mem_sortedInfos.mpr hi, hnz, h1, h2⟩
    rw [he]
    exact ⟨e, rfl⟩

/-- C4 witness: moving an 8-element fp32 chunk holding one `HOLD` item
(tensor id 7, offset 0, 6 elements, owner shape `[2, 3]`) from cpu to
`cuda:0` re-points the owner's data view to offset 0, 6 elements, shape
`[2, 3]`, on the new device. -/
theorem C4_move_witness :
    dictFind 7 [(7,
      { psShape := [2, 3]
        psDataTensor := some (mkView 0 6 [2, 3] ⟨.cuda, some 0⟩ .f32)
        psGradTensor := none
        dataT := some (mkView 0 6 [2, 3] ⟨.cuda, some 0⟩ .f32)
        gradT := none })] =
    some
      { psShape := [2, 3]
        psDataTensor := some (mkView 0 6 [2, 3] ⟨.cuda, some 0⟩ .f32)
        psGradTensor := none
        dataT := some (mkView 0 6 [2, 3] ⟨.cuda, some 0⟩ .f32)
        gradT := none } :=
  (((C4_move (fun _ => 0)
      ⟨0, 8, .f32, ⟨.cpu, none⟩, List.replicate 8 0, [⟨0, 7, 6, .HOLD⟩], 0⟩
      [(7, ⟨[2, 3], none, none, none, none⟩)] [] ⟨.cuda, some 0⟩ 9
      (by decide)).2.1 (by decide)
      (moveAccounting (fun _ => 0) ⟨.cpu, none⟩ ⟨.cuda, some 0⟩ 32)
      ⟨0, 8, .f32, ⟨.cuda, some 0⟩, List.replicate 8 0, [⟨0, 7, 6, .HOLD⟩], 9⟩
      [(7,
        { psShape := [2, 3]
          psDataTensor := some (mkView 0 6 [2, 3] ⟨.cuda, some 0⟩ .f32)
          psGradTensor := none
          dataT := some (mkView 0 6 [2, 3] ⟨.cuda, some 0⟩ .f32)
          gradT := none })] []
      rfl).2.2.2 ⟨0, 7, 6, .HOLD⟩ (by decide) (by decide)).1
    ⟨[2, 3], none, none, none, none⟩ rfl

/-- C1: victim selection pops candidates in next-access-moment-descending
order with ties broken by ascending chunk id (the priority-queue order of
`(-next_mom, chunk_id)` entries); the returned list is the prefix of that
order ending at the first victim whose cumulative payload bytes reach the
deficit `d`; the call raises instead of returning exactly when the whole
candidate set's payload stays below `d`. -/
theorem C1_victim_selection (cl : ChunkList) (d : Int) (target : TorchDevice)
    (hnd : (cl.idToChunkMap.map Prod.fst).Nodup) (hd : 0 < d) :
    (sortedCandidates cl target.devType).Perm (candidates cl target.devType) ∧
    (sortedCandidates cl target.devType).Pairwise (fun a b =>
      b.2.nextMom target.devType < a.2.nextMom target.devType ∨
      (a.2.nextMom target.devType = b.2.nextMom target.devType ∧ a.1 < b.1)) ∧
    (∀ l, chunkToMoveOut cl d target = .ok l →
      ∃ k, k ≤ (sortedCandidates cl target.devType).length ∧
        l = ((sortedCandidates cl target.devType).take k).map Prod.fst ∧
        d ≤ (sumPay ((sortedCandidates cl target.devType).take k) : Int) ∧
        ∀ j, j < k →
          (sumPay ((sortedCandidates cl target.devType).take j) : Int) < d) ∧
    ((∃ e, chunkToMoveOut cl d target = .error e) ↔
      (sumPay (candidates cl target.devType) : Int) < d) := by
  have hperm := sortedCandidates_perm cl target.devType
  have hpw := sortedCandidates_pairwise cl target.devType
  have hndc : ((candidates cl target.devType).map Prod.fst).Nodup := by
    have hsub : ((candidates cl target.devType).map Prod.fst).Sublist
        (cl.idToChunkMap.map Prod.fst) :=
      (List.filter_sublist _).map _
    exact hsub.nodup hnd
  have hndsc : ((sortedCandidates cl target.devType).map Prod.fst).Nodup :=
    ((hperm.map Prod.fst).nodup_iff).mpr hndc
  have hsum : sumPay (sortedCandidates cl target.devType) =
      sumPay (candidates cl target.devType) :=
    List.Perm.sum_eq (hperm.map _)
  refine ⟨hperm, ?_, ?_, ?_⟩
  · have hq : (sortedCandidates cl target.devType).Pairwise
        (fun a b => a.1 ≠ b.1) := List.pairwise_map.mp hndsc
    refine (hpw.and hq).imp ?_
    rintro a b ⟨hr, hne⟩
    unfold victimRel at hr
    rcases hr with hlt | ⟨heq, hle⟩
    · exact Or.inl hlt
    · exact Or.inr ⟨heq, lt_of_le_of_ne hle hne⟩
  · intro l h
    unfold chunkToMoveOut at h
    dsimp only at h
    by_cases herr :
        (((pickVictims d 0 (sortedCandidates cl target.devType)).1 : Nat) : Int) < d
    · rw [if_pos herr] at h
      cases h
    · rw [if_neg herr] at h
      injection h with h
      obtain ⟨k, hklen, hl, hacc, hmin, -⟩ :=
        pickVictims_take d (sortedCandidates cl target.devType) 0 (by omega)
      refine ⟨k, hklen, ?_, ?_, ?_⟩
      · rw [← h, hl]
      · rw [hacc] at herr
        omega
      · intro j hj
        have := hmin j hj
        omega
  · constructor
    · rintro ⟨e, he⟩
      unfold chunkToMoveOut at he
      dsimp only at he
      by_cases herr :
          (((pickVictims d 0 (sortedCandidates cl target.devType)).1 : Nat) : Int) < d
      · by_contra hge
        have hge' : d ≤ (sumPay (candidates cl target.devType) : Int) := by omega
        have := pickVictims_ge d (sortedCandidates cl target.devType) 0
          (by rw [hsum]; simpa using hge')
        omega
      · rw [if_neg herr] at he
        cases he
    · intro hlt
      have hle := pickVictims_le d (sortedCandidates cl target.devType) 0
      refine ⟨"still needs more space than available", ?_⟩
      unfold chunkToMoveOut
      dsimp only
      rw [if_pos (by rw [hsum] at hle; omega)]

/-- C2: no `COMPUTE`-state chunk and no pinned chunk is ever selected by
`_chunk_to_move_out_for_room_making`, and consequently a successful
`prepare_device` leaves every `COMPUTE` or pinned chunk exactly as it was
(same entry, hence same tier). -/
theorem C2_eviction_excludes_in_use (cl : ChunkList) (d : Int)
    (target : TorchDevice) (hnd : (cl.idToChunkMap.map Prod.fst).Nodup) :
    (∀ l, chunkToMoveOut cl d target = .ok l →
      ∀ cid ∈ l, ∀ c, lookupChunk cl cid = some c →
        c.state ≠ .COMPUTE ∧ c.pinned = false) ∧
    (∀ mgr need mgr' cl', prepareDevice mgr cl target need = .ok (mgr', cl') →
      ∀ cid c, lookupChunk cl cid = some c →
        (c.state = .COMPUTE ∨ c.pinned = true) →
        lookupChunk cl' cid = some c) := by
  have hmemprops : ∀ (dx : Int) (lx : List Nat),
      chunkToMoveOut cl dx target = .ok lx →
      ∀ cid ∈ lx, ∀ c, lookupChunk cl cid = some c →
        c.state ≠ .COMPUTE ∧ c.pinned = false := by
    intro dx lx h cid hcid c hc
    unfold chunkToMoveOut at h
    dsimp only at h
    by_cases herr :
        (((pickVictims dx 0 (sortedCandidates cl target.devType)).1 : Nat) : Int) < dx
    · rw [if_pos herr] at h
      cases h
    · rw [if_neg herr] at h
      injection h with h
      rw [← h] at hcid
      obtain ⟨ch, hch⟩ := pickVictims_mem dx _ 0 cid hcid
      have hcand : (cid, ch) ∈ candidates cl target.devType :=
        (sortedCandidates_perm cl target.devType).mem_iff.mp hch
      obtain ⟨hmem, hst, hpin, -⟩ := mem_candidates_props hcand
      have : alookup cid cl.idToChunkMap = some ch :=
        alookup_eq_of_mem_nodup hmem hnd
      have hceq : c = ch := by
        have := hc.symm.trans this
        injection this
      rw [hceq]
      exact ⟨hst, hpin⟩
  refine ⟨hmemprops d, ?_⟩
  intro mgr need mgr' cl' h cid c hc hinuse
  unfold prepareDevice at h
  by_cases hav : mgr.availOf target.devType < (need : Int)
  · rw [if_pos hav] at h
    cases h
  · rw [if_neg hav] at h
    dsimp only at h
    by_cases hex : (need : Int) - mgr.freeOf target.devType ≤ 0
    · rw [if_pos hex] at h
      simp only [Except.ok.injEq, Prod.mk.injEq] at h
      obtain ⟨-, hcl'⟩ := h
      rw [← hcl']
      exact hc
    · rw [if_neg hex] at h
      cases hmv : chunkToMoveOut cl ((need : Int) - mgr.freeOf target.devType)
          target with
      | error e =>
          rw [hmv] at h
          cases h
      | ok moved =>
          rw [hmv] at h
          dsimp only at h
          have hnotin : cid ∉ moved := by
            intro hcontra
            have := hmemprops _ _ hmv cid hcontra c hc
            rcases hinuse with hcompute | hpin
            · exact this.1 hcompute
            · rw [this.2] at hpin
              cases hpin
          have := foldlM_chunkMoveC_preserves _ moved (mgr, cl) (mgr', cl') h
            cid hnotin
          show alookup cid cl'.idToChunkMap = some c
          rw [this]
          exact hc

/-- C1 witness: two `HOLD` cpu chunks with next moments 9 (id 2, 20 B) and
5 (id 1, 10 B); a 15-byte deficit selects the prefix `[2]` of the
descending-moment order, and a 100-byte deficit (above the 30 B total) is a
fatal error. -/
theorem C1_victim_selection_witness :
    (∃ k, k ≤ (sortedCandidates
        ⟨0, [(1, ⟨10, 1, some ⟨.cpu, none⟩, .HOLD, false, 5, 0, [], []⟩),
             (2, ⟨20, 1, some ⟨.cpu, none⟩, .HOLD, false, 9, 0, [], []⟩)],
         fun _ => []⟩ DevType.cpu).length ∧
      [2] = ((sortedCandidates
        ⟨0, [(1, ⟨10, 1, some ⟨.cpu, none⟩, .HOLD, false, 5, 0, [], []⟩),
             (2, ⟨20, 1, some ⟨.cpu, none⟩, .HOLD, false, 9, 0, [], []⟩)],
         fun _ => []⟩ DevType.cpu).take k).map Prod.fst ∧
      (15 : Int) ≤ (sumPay ((sortedCandidates
        ⟨0, [(1, ⟨10, 1, some ⟨.cpu, none⟩, .HOLD, false, 5, 0, [], []⟩),
             (2, ⟨20, 1, some ⟨.cpu, none⟩, .HOLD, false, 9, 0, [], []⟩)],
         fun _ => []⟩ DevType.cpu).take k) : Int) ∧
      ∀ j, j < k → (sumPay ((sortedCandidates
        ⟨0, [(1, ⟨10, 1, some ⟨.cpu, none⟩, .HOLD, false, 5, 0, [], []⟩),
             (2, ⟨20, 1, some ⟨.cpu, none⟩, .HOLD, false, 9, 0, [], []⟩)],
         fun _ => []⟩ DevType.cpu).take j) : Int) < 15) ∧
    (∃ e, chunkToMoveOut
        ⟨0, [(1, ⟨10, 1, some ⟨.cpu, none⟩, .HOLD, false, 5, 0, [], []⟩),
             (2, ⟨20, 1, some ⟨.cpu, none⟩, .HOLD, false, 9, 0, [], []⟩)],
         fun _ => []⟩ 100 ⟨.cpu, none⟩ = .error e) :=
  ⟨(C1_victim_selection _ 15 ⟨.cpu, none⟩ (by decide) (by decide)).2.2.1
      [2] rfl,
   (C1_victim_selection _ 100 ⟨.cpu, none⟩ (by decide) (by decide)).2.2.2.mpr
      (by decide)⟩

/-- C2 witness: with a `COMPUTE` chunk (id 3) and an evictable `HOLD` chunk
(id 1) on cpu, a `prepare_device` that must evict leaves chunk 3's entry
untouched. -/
theorem C2_eviction_excludes_in_use_witness :
    lookupChunk
      ⟨0, [(1, ⟨10, 1, some ⟨.cuda, some 0⟩, .HOLD, false, 5, 0, [], []⟩),
           (3, ⟨10, 1, some ⟨.cpu, none⟩, .COMPUTE, false, 7, 0, [], []⟩)],
       fun _ => []⟩ 3 =
    some ⟨10, 1, some ⟨.cpu, none⟩, .COMPUTE, false, 7, 0, [], []⟩ :=
  (C2_eviction_excludes_in_use
      ⟨0, [(1, ⟨10, 1, some ⟨.cpu, none⟩, .HOLD, false, 5, 0, [], []⟩),
           (3, ⟨10, 1, some ⟨.cpu, none⟩, .COMPUTE, false, 7, 0, [], []⟩)],
       fun _ => []⟩ 10 ⟨.cpu, none⟩ (by decide)).2
    ⟨false, 0, 100, 100, 0, 100⟩ 10
    ⟨false, 0, 100, 100, 10, 90⟩
    ⟨0, [(1, ⟨10, 1, some ⟨.cuda, some 0⟩, .HOLD, false, 5, 0, [], []⟩),
         (3, ⟨10, 1, some ⟨.cpu, none⟩, .COMPUTE, false, 7, 0, [], []⟩)],
     fun _ => []⟩
    rfl 3 ⟨10, 1, some ⟨.cpu, none⟩, .COMPUTE, false, 7, 0, [], []⟩
    rfl (Or.inl rfl)

/-- C7: after a successful `access_chunk(id, device)` the chunk's device
type equals the requested device's type (and the chunk is materialized);
calling `access_chunk` again immediately afterwards succeeds with action
`noop` — no move, no materialization — returns the manager unchanged (no
capacity-accounting change), and changes no chunk's placement-relevant
fields (only the warm-up moment history may grow). -/
theorem C7_access_chunk_idempotent (mgr : Manager) (cl : ChunkList)
    (cid : Nat) (dev : TorchDevice) (mgr1 : Manager) (cl1 : ChunkList)
    (a1 : AccessAction) (hnd : (cl.idToChunkMap.map Prod.fst).Nodup)
    (h : accessChunk mgr cl cid dev = .ok (mgr1, cl1, a1)) :
    (∃ c, lookupChunk cl1 cid = some c ∧
      c.device.map TorchDevice.devType = some dev.devType ∧
      c.state ≠ .RELEASED) ∧
    (∃ cl2, accessChunk mgr1 cl1 cid dev = .ok (mgr1, cl2, .noop) ∧
      ∀ k, (lookupChunk cl2 k).map PSChunk.core =
        (lookupChunk cl1 k).map PSChunk.core) := by
  have hpartA : ∃ c, lookupChunk cl1 cid = some c ∧
      c.device.map TorchDevice.devType = some dev.devType ∧
      c.state ≠ .RELEASED := by
    unfold accessChunk at h
    cases hl : lookupChunk cl cid with
    | none =>
        rw [hl] at h
        cases h
    | some ch0 =>
        rw [hl] at h
        dsimp only at h
        by_cases hw : mgr.isWarmup
        · rw [if_pos hw, if_pos hw] at h
          refine accessChunkGo_post ?_ ?_ h
          · rw [updateChunk_keys]
            exact hnd
          · exact lookupChunk_updateChunk_self _ hl
        · rw [if_neg hw, if_neg hw] at h
          exact accessChunkGo_post hnd hl h
  obtain ⟨c, hlc, hdevc, hrelc⟩ := hpartA
  exact ⟨⟨c, hlc, hdevc, hrelc⟩, accessChunk_noop hlc hrelc hdevc⟩

/-- C7 witness: materializing a released 8-byte chunk on cpu leaves it on
cpu, and the immediate second access is a `noop` with the manager unchanged. -/
theorem C7_access_chunk_idempotent_witness :
    (∃ c, lookupChunk
        ⟨0, [(0, ⟨4, 2, some ⟨.cpu, none⟩, .FREE, false, 0, 0, [], []⟩)],
         fun _ => []⟩ 0 = some c ∧
      c.device.map TorchDevice.devType = some DevType.cpu ∧
      c.state ≠ .RELEASED) ∧
    (∃ cl2, accessChunk ⟨false, 0, 100, 100, 92, 100⟩
        ⟨0, [(0, ⟨4, 2, some ⟨.cpu, none⟩, .FREE, false, 0, 0, [], []⟩)],
         fun _ => []⟩ 0 ⟨.cpu, none⟩ =
        .ok (⟨false, 0, 100, 100, 92, 100⟩, cl2, .noop) ∧
      ∀ k, (lookupChunk cl2 k).map PSChunk.core =
        (lookupChunk
          ⟨0, [(0, ⟨4, 2, some ⟨.cpu, none⟩, .FREE, false, 0, 0, [], []⟩)],
           fun _ => []⟩ k).map PSChunk.core) :=
  C7_access_chunk_idempotent ⟨false, 0, 100, 100, 100, 100⟩
    ⟨0, [(0, ⟨4, 2, none, .RELEASED, false, 0, 0, [], []⟩)], fun _ => []⟩
    0 ⟨.cpu, none⟩ ⟨false, 0, 100, 100, 92, 100⟩
    ⟨0, [(0, ⟨4, 2, some ⟨.cpu, none⟩, .FREE, false, 0, 0, [], []⟩)],
     fun _ => []⟩ .materialize (by decide) rfl

/-- C8 counterexample: the claim fails as stated.  In a 10-element chunk,
installing a 10-element item (id 1), then a 0-element item (id 2), then
another 10-element item (id 3) — every one through `try_allocate`, all
`HOLD` — produces two resident items both covering `[0, 10)`: the
zero-element item resets the scan's `prev_end` from 10 to `0 + 0 = 0`, so
the tail-gap check `capacity - prev_end >= numel` passes and the third item
is placed over the first. -/
theorem C8_counterexample :
    ReachP false
      ⟨0, 10, .f32, ⟨.cpu, none⟩, List.replicate 10 0,
       [⟨0, 1, 10, .HOLD⟩, ⟨0, 2, 0, .HOLD⟩, ⟨0, 3, 10, .HOLD⟩], 3⟩ ∧
    ¬ residentDisjoint
      ⟨0, 10, .f32, ⟨.cpu, none⟩, List.replicate 10 0,
       [⟨0, 1, 10, .HOLD⟩, ⟨0, 2, 0, .HOLD⟩, ⟨0, 3, 10, .HOLD⟩], 3⟩ := by
  constructor
  · have h0 : ReachP false
        ⟨0, 10, .f32, ⟨.cpu, none⟩, List.replicate 10 0, [], 0⟩ :=
      ReachP.init false 0 10 .f32 ⟨.cpu, none⟩
    have h1 : ReachP false
        ⟨0, 10, .f32, ⟨.cpu, none⟩, List.replicate 10 0,
         [⟨0, 1, 10, .HOLD⟩], 1⟩ :=
      @ReachP.alloc false
        ⟨0, 10, .f32, ⟨.cpu, none⟩, List.replicate 10 0, [], 0⟩
        [10] 1 .HOLD 1 0
        ⟨0, 10, .f32, ⟨.cpu, none⟩, List.replicate 10 0, [⟨0, 1, 10, .HOLD⟩], 1⟩
        h0 (by decide) (by decide) (by decide)
    have h2 : ReachP false
        ⟨0, 10, .f32, ⟨.cpu, none⟩, List.replicate 10 0,
         [⟨0, 1, 10, .HOLD⟩, ⟨0, 2, 0, .HOLD⟩], 2⟩ :=
      @ReachP.alloc false
        ⟨0, 10, .f32, ⟨.cpu, none⟩, List.replicate 10 0, [⟨0, 1, 10, .HOLD⟩], 1⟩
        [0] 2 .HOLD 2 0
        ⟨0, 10, .f32, ⟨.cpu, none⟩, List.replicate 10 0,
         [⟨0, 1, 10, .HOLD⟩, ⟨0, 2, 0, .HOLD⟩], 2⟩
        h1 (by decide) (by decide) (by decide)
    exact
      @ReachP.alloc false
        ⟨0, 10, .f32, ⟨.cpu, none⟩, List.replicate 10 0,
         [⟨0, 1, 10, .HOLD⟩, ⟨0, 2, 0, .HOLD⟩], 2⟩
        [10] 3 .HOLD 3 0
        ⟨0, 10, .f32, ⟨.cpu, none⟩, List.replicate 10 0,
         [⟨0, 1, 10, .HOLD⟩, ⟨0, 2, 0, .HOLD⟩, ⟨0, 3, 10, .HOLD⟩], 3⟩
        h2 (by decide) (by decide) (by decide)
  · unfold residentDisjoint
    decide

/-- C8 (amended): for every chunk whose items were all installed through
`try_allocate` *with positive element counts* (and whose released items are
never reactivated), the `[start, start+numel)` ranges of any two resident
item descriptors never overlap.  The positivity proviso is forced by the
counterexample: a zero-element item corrupts the scan's `prev_end`. -/
theorem C8_resident_non_overlap (c : CChunk) (h : ReachP true c) :
    residentDisjoint c :=
  (reachP_invariant h rfl).1

/-- C8 witness: a chunk reached by one positive allocation has disjoint
resident ranges. -/
theorem C8_resident_non_overlap_witness :
    residentDisjoint
      ⟨0, 10, .f32, ⟨.cpu, none⟩, List.replicate 10 0, [⟨0, 1, 10, .HOLD⟩], 1⟩ :=
  C8_resident_non_overlap _
    (@ReachP.alloc true
      ⟨0, 10, .f32, ⟨.cpu, none⟩, List.replicate 10 0, [], 0⟩
      [10] 1 .HOLD 1 0
      ⟨0, 10, .f32, ⟨.cpu, none⟩, List.replicate 10 0, [⟨0, 1, 10, .HOLD⟩], 1⟩
      (ReachP.init true 0 10 .f32 ⟨.cpu, none⟩) (by decide) (by decide) (by decide))

end PatrickStar
